import Mathlib

/-!
# Verification of the Semantic-JSON canonicalization core

This file gives a shallow embedding, in Lean 4, of the canonicalization and
export core of the Semantic-JSON repository (`src/core/exporter.ts`, which
concatenates the shared helpers, the flow grouper, the sorters, the hierarchy
builder, the compiler `compileCanvasAll` and the exporter
`stripCanvasMetadata`), together with theorems settling the specification
claims about that core.

Modelling conventions:

* JavaScript numbers are modelled as `Option Int`: `none` stands for a field
  that is missing or non-finite (every read of a numeric field in the source
  is guarded by `isFiniteNumber(v) ? v : 0`, or defaulted with `|| 0`, so the
  distinction "missing vs. `NaN`/`Infinity`" is not observable downstream and
  both are modelled as `none`).  Comparisons and sums of finite integral
  values are exact in both worlds.
* `String.prototype.trim` is modelled by an explicit character-list trim
  (`jsTrim`), and `localeCompare` by code-point lexicographic comparison
  (the deterministic reading of the source's string comparisons).
* JavaScript `Map`/`Set` preserve insertion order; they are modelled as
  association lists (`SMap`) and order-preserving deduplicating lists, with
  `Map.set` updating an existing key in place and appending a fresh one.
* Comparator callbacks passed to `Array.prototype.sort` return numbers whose
  sign alone is observable; they are modelled as `Ordering`-valued functions,
  and the (spec-mandated stable) sort as the standard stable `List.mergeSort`
  with `le a b := cmp a b ≠ .gt`.
* Exceptions (`throw new Error`) are modelled with `Except String`.
* Recursions that terminate in JavaScript through a monotonically growing
  visited set (the BFS queues of the flow grouper, the recursive flatten) are
  written with an explicit fuel argument whose value provably dominates the
  JavaScript recursion depth; the choice is documented at each definition.
-/

namespace SemanticJson

/-- Model of JavaScript `String.prototype.trim`: drop whitespace characters
from both ends of the string. -/
def jsTrim (s : String) : String :=
  ⟨((s.data.dropWhile Char.isWhitespace).reverse.dropWhile Char.isWhitespace).reverse⟩

/-- `normalizedId` from `shared.ts`, on the string ids of the data model
(`typeof value === 'string'` branch: return `value.trim()`). -/
def normalizedId (value : String) : String := jsTrim value

/-- One embedded relation record produced by the exporter:
`{node, label, color?}`. -/
structure RelationEntry where
  node : String
  label : Option String
  color : Option String
deriving Repr, DecidableEq

/-- A canvas node (`CanvasNode` from `types.ts`).  Optional fields are
`Option`s; `fromRel`/`toRel` model the `from`/`to` relation arrays the
exporter attaches to nodes (`from` is a reserved word in Lean). -/
structure CanvasNode where
  id : String
  type : String
  x : Option Int
  y : Option Int
  width : Option Int
  height : Option Int
  color : Option String
  text : Option String
  file : Option String
  url : Option String
  label : Option String
  fromRel : Option (List RelationEntry)
  toRel : Option (List RelationEntry)
deriving Repr, DecidableEq

/-- A canvas edge (`CanvasEdge` from `types.ts`). -/
structure CanvasEdge where
  id : String
  fromNode : String
  toNode : String
  fromEnd : Option String
  toEnd : Option String
  color : Option String
  label : Option String
deriving Repr, DecidableEq

/-- A canvas document (`CanvasData`): the `nodes`/`edges` fields may be
missing (`none`), mirroring `Array.isArray(input?.nodes) ? input.nodes : []`
guards in the source. -/
structure CanvasData where
  nodes : Option (List CanvasNode)
  edges : Option (List CanvasEdge)
deriving Repr, DecidableEq

/-- Compile/strip settings (`CompileSettings` plus `StripSettings`); a field
that is `none` is an absent key, so JavaScript truthiness of `settings?.k`
is `= some true` and `settings?.k !== false` is `≠ some false`.  An entirely
absent settings object is the all-`none` record. -/
structure CompileSettings where
  colorSortNodes : Option Bool := none
  colorSortEdges : Option Bool := none
  flowSortNodes : Option Bool := none
  semanticSortOrphans : Option Bool := none
  stripEdgesWhenFlowSorted : Option Bool := none
  flowSort : Option Bool := none
deriving Repr, DecidableEq

/-- `NodePosition` from `types.ts`. -/
structure NodePosition where
  x : Option Int
  y : Option Int
deriving Repr, DecidableEq

/-- Insertion-ordered string-keyed map (model of JavaScript `Map`). -/
abbrev SMap (α : Type) := List (String × α)

/-- Lookup in an `SMap` (JavaScript `map.get(k)`, first occurrence wins;
keys are unique by construction because insertion goes through `mset`). -/
def mget (m : SMap α) (k : String) : Option α := List.lookup k m

/-- JavaScript `map.set(k, v)`: overwrite in place if the key exists,
append otherwise. -/
def mset (m : SMap α) (k : String) (v : α) : SMap α :=
  match m with
  | [] => [(k, v)]
  | (k', v') :: rest => if k' = k then (k, v) :: rest else (k', v') :: mset rest k v

/-- JavaScript `map.get(k)?.push(v)` style update: modify the value at `k`
if present, no-op otherwise (the optional chain). -/
def mupd (m : SMap α) (k : String) (f : α → α) : SMap α :=
  match m with
  | [] => []
  | (k', v') :: rest => if k' = k then (k', f v') :: rest else (k', v') :: mupd rest k f

/-- The `if (!m.has(k)) m.set(k, []); m.get(k)?.push(v)` idiom used to build
multimaps. -/
def mpush (m : SMap (List α)) (k : String) (v : α) : SMap (List α) :=
  if (mget m k).isSome then mupd m k (fun l => l ++ [v]) else m ++ [(k, [v])]

/-- JavaScript `Set.add` on a string set kept in insertion order. -/
def sadd (s : List String) (x : String) : List String :=
  if x ∈ s then s else s ++ [x]

/-- `v.getD 0`: the ubiquitous `isFiniteNumber(v) ? v : 0` guard of the
source (`isFiniteNumber` itself is `Option.isSome` in this model). -/
def numOr0 (v : Option Int) : Int := v.getD 0

/-- Fuel-indexed replica of `List.merge` (the core `merge` is compiled by
well-founded recursion and does not compute by kernel reduction); fuel
`|xs| + |ys|` dominates the recursion depth. -/
def jsMerge {α : Type} (le : α → α → Bool) : Nat → List α → List α → List α
  | 0, xs, ys => xs ++ ys
  | fuel + 1, xs, ys =>
    match xs, ys with
    | [], ys => ys
    | xs, [] => xs
    | x :: xs, y :: ys =>
      if le x y then x :: jsMerge le fuel xs (y :: ys)
      else y :: jsMerge le fuel (x :: xs) ys

/-- Fuel-indexed replica of the stable merge sort: the model of
`Array.prototype.sort` (spec-mandated stable).  It is written with structural
recursion on a fuel argument so that it computes by kernel reduction (the
core `List.mergeSort` is compiled by well-founded recursion and does not);
`jsSort` instantiates the fuel with the list length, which dominates the
recursion depth, and is proved equal to `List.mergeSort` below. -/
def jsSortFuel {α : Type} (le : α → α → Bool) : Nat → List α → List α
  | 0, l => l
  | fuel + 1, l =>
    match l with
    | [] => []
    | [a] => [a]
    | l =>
      jsMerge le l.length (jsSortFuel le fuel (l.take ((l.length + 1) / 2)))
        (jsSortFuel le fuel (l.drop ((l.length + 1) / 2)))

/-- The stable sort used by the sorter models. -/
def jsSort {α : Type} (le : α → α → Bool) (l : List α) : List α := jsSortFuel le l.length l

/-- Canonical `Ordering`-valued comparison on a linear order. -/
def cmpv {α : Type} [LinearOrder α] (x y : α) : Ordering :=
  if x < y then .lt else if y < x then .gt else .eq

/-- Sign-level model of a JavaScript numeric comparator step `a - b` on
integers. -/
def cmpInt (a b : Int) : Ordering := cmpv a b

/-- Structural lexicographic comparison of character lists by code point
(kernel-computable, unlike the order instances on `String`). -/
def strLtList : List Char → List Char → Bool
  | [], [] => false
  | [], _ :: _ => true
  | _ :: _, [] => false
  | a :: as, b :: bs =>
    if a.toNat < b.toNat then true
    else if b.toNat < a.toNat then false
    else strLtList as bs

/-- Structural code-point `<` on strings. -/
def strLt (a b : String) : Bool := strLtList a.data b.data

/-- Model of `a.localeCompare(b)`: code-point lexicographic comparison
(the deterministic reading; only the sign is observable). -/
def cmpString (a b : String) : Ordering :=
  if strLt a b then .lt else if strLt b a then .gt else .eq

/-- Model of `String.prototype.toLowerCase` (ASCII case folding, written
structurally over the character list so that it computes by kernel
reduction). -/
def jsToLower (s : String) : String := ⟨s.data.map Char.toLower⟩

/-- `getNodeSortKey` from `shared.ts`: the semantic tie-break key. -/
def getNodeSortKey (node : CanvasNode) : String :=
  if node.type = "text" ∧ node.text.isSome then
    jsTrim (jsToLower (node.text.getD ""))
  else if node.type = "file" ∧ node.file.isSome then
    let f := node.file.getD ""
    let filename := (f.splitOn "/").getLastD f
    let filename := if filename = "" then f else filename
    jsTrim (jsToLower filename)
  else if node.type = "link" ∧ node.url.isSome then
    jsTrim (jsToLower (node.url.getD ""))
  else if node.type = "group" ∧ node.label.isSome then
    jsTrim (jsToLower (node.label.getD ""))
  else
    jsToLower (normalizedId node.id)

/-- `getNodeTypePriority` from `shared.ts`: link nodes sort last. -/
def getNodeTypePriority (node : CanvasNode) : Int :=
  if node.type = "link" then 1 else 0

/-- `getNodeColor` from `shared.ts`. -/
def getNodeColor (node : CanvasNode) : String :=
  match node.color with
  | some c => jsToLower c
  | none => ""

/-- `getEdgeColor` from `shared.ts`. -/
def getEdgeColor (edge : CanvasEdge) : String :=
  match edge.color with
  | some c => jsToLower c
  | none => ""

/-- `isDirectionalEdge` from `shared.ts`. -/
def isDirectionalEdge (edge : CanvasEdge) : Bool :=
  if edge.fromEnd = some "arrow" ∨ edge.toEnd = some "arrow" then true
  else if edge.toEnd = none ∧ edge.fromEnd ≠ some "arrow" then true
  else false

/-- `isContainedBy` from `shared.ts`: rectangle containment with missing
coordinates defaulted to `0`. -/
def isContainedBy (node group : CanvasNode) : Bool :=
  let nx := numOr0 node.x
  let ny := numOr0 node.y
  let nw := numOr0 node.width
  let nh := numOr0 node.height
  let gx := numOr0 group.x
  let gy := numOr0 group.y
  let gw := numOr0 group.width
  let gh := numOr0 group.height
  nx ≥ gx ∧ ny ≥ gy ∧ nx + nw ≤ gx + gw ∧ ny + nh ≤ gy + gh

/-- `isCustomColor` from the exporter: a string that is non-empty after
trimming and does not match `/^\d+$/`. -/
def isCustomColor (value : Option String) : Bool :=
  match value with
  | none => false
  | some s =>
    let v := jsTrim s
    if v = "" then false else ¬(v.data.all Char.isDigit)

/-- A flow group: a connected component of directional edges, its `(minY,
minX)` anchor, and the per-node topological depth map. -/
structure FlowGroup where
  nodes : List String
  minY : Int
  minX : Int
  flowOrder : SMap Int
deriving Repr, DecidableEq

/-- The breadth-first component walk of `buildFlowGroups`.  One fuel unit is
one `while` iteration (one `queue.shift()`); the caller passes fuel
dominating the total number of enqueued ids. -/
def bfsComponent (adjacency : SMap (List String)) :
    Nat → List String → List String → List String → List String × List String
  | 0, _, visited, component => (visited, component)
  | _ + 1, [], visited, component => (visited, component)
  | fuel + 1, current :: queue, visited, component =>
    if current = "" ∨ current ∈ visited then
      bfsComponent adjacency fuel queue visited component
    else
      let visited := visited ++ [current]
      let component := component ++ [current]
      let neighbors := (mget adjacency current).getD []
      let queue := queue ++ neighbors.filter (fun n => ¬ n ∈ visited)
      bfsComponent adjacency fuel queue visited component

/-- The Kahn-style layering loop of `buildFlowGroups`.  One fuel unit is one
`while` iteration; each component member is enqueued at most once (a node is
pushed only when its stored in-degree hits exactly `0`, which happens at most
once since the stored value strictly decreases), so the caller's fuel of
`1 + |initial queue| + Σ |outgoing lists|` dominates the iteration count. -/
def kahnLoop (outgoing : SMap (List String)) (component : List String) :
    Nat → List String → SMap Int → SMap Int → SMap Int
  | 0, _, _, flowOrder => flowOrder
  | _ + 1, [], _, flowOrder => flowOrder
  | fuel + 1, current :: queue, inDegree, flowOrder =>
    if current = "" then kahnLoop outgoing component fuel queue inDegree flowOrder
    else
      let currentDepth := (mget flowOrder current).getD 0
      let nexts := ((mget outgoing current).getD []).filter (fun n => n ∈ component)
      let st := nexts.foldl
        (fun (st : List String × SMap Int × SMap Int) next =>
          let (queue, inDegree, flowOrder) := st
          let degree := (mget inDegree next).getD 0 - 1
          let inDegree := mset inDegree next degree
          let nextDepth := max ((mget flowOrder next).getD 0) (currentDepth + 1)
          let flowOrder := mset flowOrder next nextDepth
          if degree = 0 then (queue ++ [next], inDegree, flowOrder)
          else (queue, inDegree, flowOrder))
        (queue, inDegree, flowOrder)
      kahnLoop outgoing component fuel st.1 st.2.1 st.2.2

/-- `buildFlowGroups` from the sorter: undirected connected components over
directional edges restricted to the node subset, each with an anchor and a
topological depth per node. -/
def buildFlowGroups (nodes : List CanvasNode) (allEdges : List CanvasEdge)
    (nodePositions : SMap NodePosition) : List FlowGroup :=
  let nodeIdSet := nodes.map (fun n => normalizedId n.id)
  let scopedEdges := allEdges.filter (fun e =>
    normalizedId e.fromNode ∈ nodeIdSet ∧ normalizedId e.toNode ∈ nodeIdSet)
  let init : SMap (List String) := nodes.foldl (fun m n => mset m (normalizedId n.id) []) []
  let maps := scopedEdges.foldl
    (fun (maps : SMap (List String) × SMap (List String) × SMap (List String)) edge =>
      if ¬ isDirectionalEdge edge then maps
      else
        let (adjacency, outgoing, incoming) := maps
        let fromId := normalizedId edge.fromNode
        let toId := normalizedId edge.toNode
        let adjacency := mupd adjacency fromId (fun s => sadd s toId)
        let adjacency := mupd adjacency toId (fun s => sadd s fromId)
        let fromEnd := edge.fromEnd
        let toEnd := edge.toEnd.getD "arrow"
        if fromEnd = some "arrow" ∧ toEnd = "arrow" then
          (adjacency, outgoing, incoming)
        else if fromEnd = some "arrow" then
          (adjacency, mupd outgoing toId (fun s => sadd s fromId),
            mupd incoming fromId (fun s => sadd s toId))
        else
          (adjacency, mupd outgoing fromId (fun s => sadd s toId),
            mupd incoming toId (fun s => sadd s fromId)))
    (init, init, init)
  let adjacency := maps.1
  let outgoing := maps.2.1
  let incoming := maps.2.2
  -- Fuel for one BFS: every iteration pops one queue entry; entries enter the
  -- queue once initially and otherwise only from adjacency lists of freshly
  -- visited keys, each consumed at most once.
  let bfsFuel := 1 + adjacency.length + (adjacency.map (fun p => p.2.length)).sum
  let components := (adjacency.map Prod.fst).foldl
    (fun (st : List String × List (List String)) nodeId =>
      if nodeId ∈ st.1 then st
      else
        let r := bfsComponent adjacency bfsFuel [nodeId] st.1 []
        if r.2.length > 1 then (r.1, st.2 ++ [r.2]) else (r.1, st.2))
    ([], [])
  components.2.foldl
    (fun gs component =>
      let anchor := component.foldl
        (fun (acc : Option (Int × Int)) nodeId =>
          let pos := mget nodePositions nodeId
          let y := numOr0 (pos.bind fun p => p.y)
          let x := numOr0 (pos.bind fun p => p.x)
          match acc with
          | none => some (y, x)
          | some (minY, minX) =>
            if y < minY ∨ (y = minY ∧ x < minX) then some (y, x) else some (minY, minX))
        none
      let minY := (anchor.map Prod.fst).getD 0
      let minX := (anchor.map Prod.snd).getD 0
      let inDegree := component.foldl
        (fun m nodeId =>
          let degree := (((mget incoming nodeId).getD []).filter (fun s => s ∈ component)).length
          mset m nodeId (degree : Int))
        []
      let start := component.foldl
        (fun (st : List String × SMap Int) nodeId =>
          if mget inDegree nodeId = some 0 then (st.1 ++ [nodeId], mset st.2 nodeId 0) else st)
        ([], [])
      let kahnFuel := 1 + start.1.length + (outgoing.map (fun p => p.2.length)).sum
      let flowOrder := kahnLoop outgoing component kahnFuel start.1 inDegree start.2
      let flowOrder := component.foldl
        (fun fo nodeId =>
          if (mget fo nodeId).isSome then fo
          else
            let maxDepth := (fo.map Prod.snd).foldl max 0
            mset fo nodeId (maxDepth + 1))
        flowOrder
      gs ++ [{ nodes := component, minY := minY, minX := minX, flowOrder := flowOrder }])
    []

/-- The node-id → flow-group assignment; the JavaScript map stores object
references compared by identity, modelled as the index into the flow-group
list (components are disjoint, so each id gets exactly one index). -/
def nodeToFlowGroupMap (flowGroups : List FlowGroup) : SMap Nat :=
  flowGroups.enum.foldl
    (fun m p => p.2.nodes.foldl (fun m nodeId => mset m nodeId p.1) m) []

/-- The shared tail of the node comparator in `stableSortByXY`: the
within-group key sequence, or the baseline spatial-first sequence. -/
def compareNodesTail (settings : CompileSettings) (isWithinGroup : Bool)
    (a b : CanvasNode) : Ordering :=
  if isWithinGroup then
    let aP := getNodeTypePriority a
    let bP := getNodeTypePriority b
    if aP ≠ bP then cmpInt aP bP
    else if settings.colorSortNodes ≠ some false ∧ getNodeColor a ≠ getNodeColor b then
      cmpString (getNodeColor a) (getNodeColor b)
    else cmpString (getNodeSortKey a) (getNodeSortKey b)
  else
    let ay := numOr0 a.y
    let by_ := numOr0 b.y
    if ay ≠ by_ then cmpInt ay by_
    else
      let ax := numOr0 a.x
      let bx := numOr0 b.x
      if ax ≠ bx then cmpInt ax bx
      else
        let aP := getNodeTypePriority a
        let bP := getNodeTypePriority b
        if aP ≠ bP then cmpInt aP bP
        else if settings.colorSortNodes ≠ some false ∧ getNodeColor a ≠ getNodeColor b then
          cmpString (getNodeColor a) (getNodeColor b)
        else cmpString (getNodeSortKey a) (getNodeSortKey b)

/-- The full node comparator of `stableSortByXY` (the callback passed to
`nodes.sort`), including the flow-aware branches. -/
def compareNodes (settings : CompileSettings) (isWithinGroup : Bool)
    (flowGroups : List FlowGroup) (n2g : SMap Nat) (a b : CanvasNode) : Ordering :=
  if settings.flowSortNodes = some true then
    let aId := normalizedId a.id
    let bId := normalizedId b.id
    match mget n2g aId, mget n2g bId with
    | some gia, some gib =>
      if gia = gib then
        let g := (flowGroups[gia]?).getD { nodes := [], minY := 0, minX := 0, flowOrder := [] }
        let aDepth := (mget g.flowOrder aId).getD 0
        let bDepth := (mget g.flowOrder bId).getD 0
        if aDepth ≠ bDepth then cmpInt aDepth bDepth
        else
          let ay := numOr0 a.y
          let by_ := numOr0 b.y
          if ay ≠ by_ then cmpInt ay by_
          else
            let ax := numOr0 a.x
            let bx := numOr0 b.x
            if ax ≠ bx then cmpInt ax bx
            else if settings.colorSortNodes ≠ some false ∧ getNodeColor a ≠ getNodeColor b then
              cmpString (getNodeColor a) (getNodeColor b)
            else cmpString (getNodeSortKey a) (getNodeSortKey b)
      else
        let ga := (flowGroups[gia]?).getD { nodes := [], minY := 0, minX := 0, flowOrder := [] }
        let gb := (flowGroups[gib]?).getD { nodes := [], minY := 0, minX := 0, flowOrder := [] }
        if ga.minY ≠ gb.minY then cmpInt ga.minY gb.minY
        else if ga.minX ≠ gb.minX then cmpInt ga.minX gb.minX
        else compareNodesTail settings isWithinGroup a b
    | some gia, none =>
      let ga := (flowGroups[gia]?).getD { nodes := [], minY := 0, minX := 0, flowOrder := [] }
      let by_ := numOr0 b.y
      let bx := numOr0 b.x
      if ga.minY ≠ by_ then cmpInt ga.minY by_
      else if ga.minX ≠ bx then cmpInt ga.minX bx
      else .lt
    | none, some gib =>
      let gb := (flowGroups[gib]?).getD { nodes := [], minY := 0, minX := 0, flowOrder := [] }
      let ay := numOr0 a.y
      let ax := numOr0 a.x
      if ay ≠ gb.minY then cmpInt ay gb.minY
      else if ax ≠ gb.minX then cmpInt ax gb.minX
      else .gt
    | none, none => compareNodesTail settings isWithinGroup a b
  else compareNodesTail settings isWithinGroup a b

/-- `stableSortByXY`: stable sort of the node array by the context-sensitive
comparator (flow groups are computed exactly when flow-aware sorting is on;
the compiler always supplies edges and positions). -/
def stableSortByXY (nodes : List CanvasNode) (settings : CompileSettings)
    (allEdges : List CanvasEdge) (nodePositions : SMap NodePosition)
    (isWithinGroup : Bool := false) : List CanvasNode :=
  let flowGroups :=
    if settings.flowSortNodes = some true then buildFlowGroups nodes allEdges nodePositions
    else []
  let n2g := nodeToFlowGroupMap flowGroups
  jsSort (fun a b => compareNodes settings isWithinGroup flowGroups n2g a b ≠ .gt) nodes

/-- Depth comparison step of the edge comparator, where a missing depth is
JavaScript `Infinity` (`?? Infinity`; equal infinities compare as a tie). -/
def cmpDepthInf : Option Int → Option Int → Ordering
  | some a, some b => if a ≠ b then cmpInt a b else .eq
  | some _, none => .lt
  | none, some _ => .gt
  | none, none => .eq

/-- The edge comparator of `stableEdgeSortByTopology`. -/
def compareEdges (settings : CompileSettings) (flowGroups : List FlowGroup)
    (n2g : SMap Nat) (nodePositions : SMap NodePosition) (a b : CanvasEdge) : Ordering :=
  let aFromId := normalizedId a.fromNode
  let bFromId := normalizedId b.fromNode
  let aToId := normalizedId a.toNode
  let bToId := normalizedId b.toNode
  let tail :=
    let aFrom := mget nodePositions aFromId
    let bFrom := mget nodePositions bFromId
    let afy := numOr0 (aFrom.bind fun p => p.y)
    let bfy := numOr0 (bFrom.bind fun p => p.y)
    if afy ≠ bfy then cmpInt afy bfy
    else
      let afx := numOr0 (aFrom.bind fun p => p.x)
      let bfx := numOr0 (bFrom.bind fun p => p.x)
      if afx ≠ bfx then cmpInt afx bfx
      else
        let aTo := mget nodePositions aToId
        let bTo := mget nodePositions bToId
        let aty := numOr0 (aTo.bind fun p => p.y)
        let bty := numOr0 (bTo.bind fun p => p.y)
        if aty ≠ bty then cmpInt aty bty
        else
          let atx := numOr0 (aTo.bind fun p => p.x)
          let btx := numOr0 (bTo.bind fun p => p.x)
          if atx ≠ btx then cmpInt atx btx
          else if settings.colorSortEdges ≠ some false ∧ getEdgeColor a ≠ getEdgeColor b then
            cmpString (getEdgeColor a) (getEdgeColor b)
          else cmpString (normalizedId a.id) (normalizedId b.id)
  if settings.flowSortNodes = some true ∧ n2g ≠ [] then
    let groupAt := fun (i : Nat) =>
      (flowGroups[i]?).getD { nodes := [], minY := 0, minX := 0, flowOrder := [] }
    let fromCmp :=
      match mget n2g aFromId, mget n2g bFromId with
      | some gia, some gib =>
        cmpDepthInf (mget (groupAt gia).flowOrder aFromId) (mget (groupAt gib).flowOrder bFromId)
      | _, _ => .eq
    if fromCmp ≠ .eq then fromCmp
    else
      let toCmp :=
        match mget n2g aToId, mget n2g bToId with
        | some gia, some gib =>
          cmpDepthInf (mget (groupAt gia).flowOrder aToId) (mget (groupAt gib).flowOrder bToId)
        | _, _ => .eq
      if toCmp ≠ .eq then toCmp else tail
  else tail

/-- `stableEdgeSortByTopology`: stable sort of the edge array (flow groups
are computed from the unsorted edge list first, exactly as in the source). -/
def stableEdgeSortByTopology (edges : List CanvasEdge) (nodePositions : SMap NodePosition)
    (settings : CompileSettings) (nodes : List CanvasNode) : List CanvasEdge :=
  let flowGroups :=
    if settings.flowSortNodes = some true then buildFlowGroups nodes edges nodePositions
    else []
  let n2g := nodeToFlowGroupMap flowGroups
  jsSort (fun a b => compareEdges settings flowGroups n2g nodePositions a b ≠ .gt) edges

/-- The innermost-parent scan of `buildHierarchy` for a non-group node:
among containing groups keep the one of smallest `width*height` area
(strict `<`, so ties go to the earliest group in encounter order). -/
def innermostParent (groups : List CanvasNode) (node : CanvasNode) : Option CanvasNode :=
  (groups.foldl
    (fun (acc : Option (CanvasNode × Int)) group =>
      if isContainedBy node group then
        let area := numOr0 group.width * numOr0 group.height
        match acc with
        | none => some (group, area)
        | some (p, minArea) => if area < minArea then some (group, area) else some (p, minArea)
      else acc)
    none).map Prod.fst

/-- The innermost-parent scan of `buildHierarchy` among group nodes,
skipping the candidate with the same (raw) id. -/
def innermostGroupParent (groups : List CanvasNode) (childGroup : CanvasNode) :
    Option CanvasNode :=
  (groups.foldl
    (fun (acc : Option (CanvasNode × Int)) parentGroup =>
      if childGroup.id = parentGroup.id then acc
      else if isContainedBy childGroup parentGroup then
        let area := numOr0 parentGroup.width * numOr0 parentGroup.height
        match acc with
        | none => some (parentGroup, area)
        | some (p, minArea) => if area < minArea then some (parentGroup, area) else some (p, minArea)
      else acc)
    none).map Prod.fst

/-- `buildHierarchy`: the group-id → immediate-children multimap. -/
def buildHierarchy (nodes : List CanvasNode) : SMap (List CanvasNode) :=
  let groups := nodes.filter (fun n => n.type = "group")
  let nonGroups := nodes.filter (fun n => n.type ≠ "group")
  let m := nonGroups.foldl
    (fun m node =>
      match innermostParent groups node with
      | some parent => mpush m (normalizedId parent.id) node
      | none => m)
    []
  groups.foldl
    (fun m childGroup =>
      match innermostGroupParent groups childGroup with
      | some parent => mpush m (normalizedId parent.id) childGroup
      | none => m)
    m

/-- `addNodeAndChildren` from `flattenHierarchical`: emit a node (unless
already processed) and recurse into its sorted children.  State is the
`(processed, result)` pair; one fuel unit is one nested call level.  Every
level that does not return immediately appends a fresh id to `processed`,
and children come from `parentMap`, so with the `nodes.length + 1` fuel the
compiler passes the fuel never runs out on `buildHierarchy` output. -/
def addNodeAndChildren (parentMap : SMap (List CanvasNode)) (settings : CompileSettings)
    (allEdges : List CanvasEdge) (nodePositions : SMap NodePosition) :
    Nat → CanvasNode → List String × List CanvasNode → List String × List CanvasNode
  | 0, _, st => st
  | fuel + 1, node, st =>
    let nodeId := normalizedId node.id
    if nodeId ∈ st.1 then st
    else
      let st := (st.1 ++ [nodeId], st.2 ++ [node])
      if node.type = "group" ∧ (mget parentMap nodeId).isSome then
        let children := (mget parentMap nodeId).getD []
        let children := stableSortByXY children settings allEdges nodePositions true
        let childGroups := children.filter (fun c => c.type = "group")
        let childNonGroups := children.filter (fun c => c.type ≠ "group")
        let childGroups := stableSortByXY childGroups
          { settings with colorSortNodes := some false } allEdges nodePositions false
        let st := childNonGroups.foldl
          (fun st c => addNodeAndChildren parentMap settings allEdges nodePositions fuel c st) st
        childGroups.foldl
          (fun st c => addNodeAndChildren parentMap settings allEdges nodePositions fuel c st) st
      else st

/-- `flattenHierarchical`: preorder flatten of roots and their subtrees. -/
def flattenHierarchical (nodes : List CanvasNode) (parentMap : SMap (List CanvasNode))
    (settings : CompileSettings) (allEdges : List CanvasEdge)
    (nodePositions : SMap NodePosition) : List CanvasNode :=
  let groups := nodes.filter (fun n => n.type = "group")
  let nonGroups := nodes.filter (fun n => n.type ≠ "group")
  let isChildId := fun (nodeId : String) =>
    parentMap.any (fun p => p.2.any (fun c => normalizedId c.id = nodeId))
  let rootNodes := nonGroups.filter (fun n => ¬ isChildId (normalizedId n.id))
  let rootGroups := groups.filter (fun g => ¬ isChildId (normalizedId g.id))
  let rootNodes := stableSortByXY rootNodes settings allEdges nodePositions
    (settings.semanticSortOrphans = some true)
  let rootGroups := stableSortByXY rootGroups settings allEdges nodePositions
  let fuel := nodes.length + 1
  let st := rootNodes.foldl
    (fun st n => addNodeAndChildren parentMap settings allEdges nodePositions fuel n st)
    ([], [])
  let st := rootGroups.foldl
    (fun st g => addNodeAndChildren parentMap settings allEdges nodePositions fuel g st)
    st
  st.2

/-- The node-validation loop of `compileCanvasAll`: non-empty trimmed ids,
no duplicates; returns the set (here: list, in order) of validated ids. -/
def checkNodes : List CanvasNode → List String → Except String (List String)
  | [], seen => .ok seen
  | n :: rest, seen =>
    let id := normalizedId n.id
    if id = "" then .error "node missing id"
    else if id ∈ seen then .error ("duplicate node id: " ++ id)
    else checkNodes rest (seen ++ [id])

/-- The edge-validation loop of `compileCanvasAll`: non-empty unique trimmed
edge ids, non-empty endpoint references resolving to validated node ids. -/
def checkEdges (nodeIds : List String) : List CanvasEdge → List String → Except String Unit
  | [], _ => .ok ()
  | e :: rest, seen =>
    let id := normalizedId e.id
    if id = "" then .error "edge missing id"
    else if id ∈ seen then .error ("duplicate edge id: " ++ id)
    else
      let fromNode := normalizedId e.fromNode
      let toNode := normalizedId e.toNode
      if fromNode = "" ∨ toNode = "" then .error ("edge " ++ id ++ " missing fromNode/toNode")
      else if ¬ fromNode ∈ nodeIds then
        .error ("edge " ++ id ++ " references missing fromNode: " ++ fromNode)
      else if ¬ toNode ∈ nodeIds then
        .error ("edge " ++ id ++ " references missing toNode: " ++ toNode)
      else checkEdges nodeIds rest (seen ++ [id])

/-- The node-position map built during validation (ids are distinct once
validation succeeds, so first-match lookup agrees with `Map.set`). -/
def nodePositionsOf (nodes : List CanvasNode) : SMap NodePosition :=
  nodes.map (fun n => (normalizedId n.id, { x := n.x, y := n.y }))

/-- `compileCanvasAll`: validate, build the hierarchy, flatten, sort edges;
any integrity violation aborts with the error message of the source. -/
def compileCanvasAll (input : CanvasData) (settings : CompileSettings) :
    Except String CanvasData := do
  let nodes := input.nodes.getD []
  let edges := input.edges.getD []
  let nodeIds ← checkNodes nodes []
  let _ ← checkEdges nodeIds edges []
  let nodePositions := nodePositionsOf nodes
  let parentMap := buildHierarchy nodes
  let outNodes := flattenHierarchical nodes parentMap settings edges nodePositions
  let outEdges := stableEdgeSortByTopology edges nodePositions settings nodes
  return { nodes := some outNodes, edges := some outEdges }

/-- `processLabeledEdges` from the exporter: the node-id → relation-list
multimap for one direction (`'to'` keyed by source, `'from'` keyed by
target). -/
def processLabeledEdges (labeledEdges : List CanvasEdge) (direction : String) :
    SMap (List RelationEntry) :=
  labeledEdges.foldl
    (fun m edge =>
      let fromId := normalizedId edge.fromNode
      let toId := normalizedId edge.toNode
      let color := if isCustomColor edge.color then edge.color else none
      if direction = "to" then
        mpush m fromId { node := toId, label := edge.label, color := color }
      else if direction = "from" then
        mpush m toId { node := fromId, label := edge.label, color := color }
      else m)
    []

/-- `stripCanvasMetadata`: the exporter.  Keeps only semantic node fields,
embeds labeled edges as `from`/`to` relation arrays, keeps unlabeled edges
as top-level records unless `flowSort`/`stripEdgesWhenFlowSorted` is set. -/
def stripCanvasMetadata (input : CanvasData) (settings : CompileSettings) : CanvasData :=
  let inputEdges := input.edges.getD []
  let labeledEdges := inputEdges.filter (fun e => e.label.isSome)
  let unlabeledEdges := inputEdges.filter (fun e => ¬ e.label.isSome)
  let nodeFromEdges := processLabeledEdges labeledEdges "from"
  let nodeToEdges := processLabeledEdges labeledEdges "to"
  let nodes := (input.nodes.getD []).map
    (fun node =>
      let nodeId := normalizedId node.id
      { id := node.id
        type := node.type
        x := none, y := none, width := none, height := none
        text := node.text
        file := node.file
        url := node.url
        label := node.label
        color := if isCustomColor node.color then node.color else none
        fromRel := mget nodeFromEdges nodeId
        toRel := mget nodeToEdges nodeId : CanvasNode })
  let shouldStripEdges :=
    settings.flowSort = some true ∨ settings.stripEdgesWhenFlowSorted = some true
  let edges :=
    if shouldStripEdges then []
    else unlabeledEdges.map
      (fun edge =>
        { id := edge.id
          fromNode := edge.fromNode
          toNode := edge.toNode
          fromEnd := none, toEnd := none, label := none
          color := if isCustomColor edge.color then edge.color else none : CanvasEdge })
  { nodes := some nodes, edges := some edges }


/-- Decidable equality of `Except` values, for evaluating the compiler at
concrete documents inside proofs. -/
instance {ε α : Type} [DecidableEq ε] [DecidableEq α] : DecidableEq (Except ε α) := by
  intro a b
  cases a with
  | error ea =>
    cases b with
    | error eb =>
      exact decidable_of_iff (ea = eb)
        (by constructor
            · intro h; rw [h]
            · intro h; cases h; rfl)
    | ok vb => exact isFalse (fun h => by cases h)
  | ok va =>
    cases b with
    | error eb => exact isFalse (fun h => by cases h)
    | ok vb =>
      exact decidable_of_iff (va = vb)
        (by constructor
            · intro h; rw [h]
            · intro h; cases h; rfl)

/-! ## Concrete documents used in counterexamples and witnesses -/

/-- A node record with only id/type/rectangle set. -/
def plainNode (id ty : String) (x y w h : Int) : CanvasNode :=
  { id := id, type := ty, x := some x, y := some y, width := some w, height := some h,
    color := none, text := none, file := none, url := none, label := none,
    fromRel := none, toRel := none }

/-- Two distinct nodes sharing the id `"dup"` (the spec's fail-fast example). -/
def dupDoc : CanvasData :=
  { nodes := some [plainNode "dup" "text" 0 0 1 1, plainNode "dup" "text" 5 5 1 1],
    edges := some [] }

/-- Two-node document exercising palette-index vs custom colors. -/
def c6Doc : CanvasData :=
  { nodes := some [{ plainNode "n1" "text" 0 0 1 1 with color := some "3" },
                   { plainNode "n2" "text" 0 5 1 1 with color := some "#ff00aa" }],
    edges := some [] }

/-- The compiled form of `c6Doc` (nodes already in canonical order). -/
def c6Out : CanvasData :=
  { nodes := some [{ plainNode "n1" "text" 0 0 1 1 with color := some "3" },
                   { plainNode "n2" "text" 0 5 1 1 with color := some "#ff00aa" }],
    edges := some [] }

/-- The spec's label-embedding example edge `e1 : n1 -> n2` with label
`"go"` and custom color. -/
def c5Edge : CanvasEdge :=
  { id := "e1", fromNode := "n1", toNode := "n2", fromEnd := none, toEnd := none,
    color := some "hsl(120 100% 50%)", label := some "go" }

/-- The spec's label-embedding example document. -/
def c5Doc : CanvasData :=
  { nodes := some [plainNode "n1" "text" 0 0 1 1, plainNode "n2" "text" 0 5 1 1],
    edges := some [c5Edge] }

/-- Two nodes whose ids differ only in surrounding whitespace. -/
def c10Doc : CanvasData :=
  { nodes := some [plainNode "dup" "text" 0 0 1 1, plainNode " dup " "text" 5 5 1 1],
    edges := some [] }

/-- Mutual containment counterexample for C1: two identical group
rectangles contain each other, every parent chain cycles, and the flatten
step emits nothing. -/
def c1Doc : CanvasData :=
  { nodes := some [plainNode "a" "group" 0 0 10 10, plainNode "b" "group" 0 0 10 10],
    edges := some [] }

/-- Properly nested witness pair for the amended C1: a group and a text
node inside it. -/
def c1G : CanvasNode := plainNode "G" "group" 0 0 100 100

/-- See `c1G`. -/
def c1T : CanvasNode := plainNode "T" "text" 10 10 10 10

/-- Equal-area counterexample for C2: two groups of the same area both
contain `c2n`, and the group tie is resolved by encounter order, which the
first compile changes. -/
def c2g1 : CanvasNode := plainNode "g1" "group" 0 0 10 10

/-- See `c2g1`. -/
def c2g2 : CanvasNode := plainNode "g2" "group" (-5) 0 10 10

/-- See `c2g1`. -/
def c2n : CanvasNode := plainNode "n" "text" 0 0 2 2

/-- The C2 counterexample document. -/
def c2Doc : CanvasData := { nodes := some [c2g1, c2g2, c2n], edges := some [] }

/-- Concrete nodes and edges for the edge-permutation witness. -/
def c3n1 : CanvasNode := plainNode "n1" "text" 0 0 1 1

/-- See `c3n1`. -/
def c3n2 : CanvasNode := plainNode "n2" "text" 0 50 1 1

/-- Edge `n1 -> n2` of the edge-permutation witness. -/
def c3ex : CanvasEdge :=
  { id := "ex", fromNode := "n1", toNode := "n2", fromEnd := none, toEnd := some "arrow",
    color := none, label := none }

/-- Edge `n2 -> n1` of the edge-permutation witness. -/
def c3ey : CanvasEdge :=
  { id := "ey", fromNode := "n2", toNode := "n1", fromEnd := none, toEnd := some "arrow",
    color := none, label := none }

/-- Two text nodes tied on every comparator key (same position, type,
color and text): the comparator returns a tie, so the stable sort keeps
the input order and permuting the input changes the output. -/
def c3t1 : CanvasNode := { plainNode "ta" "text" 0 0 1 1 with text := some "hi" }

/-- See `c3t1`. -/
def c3t2 : CanvasNode := { plainNode "tb" "text" 0 0 1 1 with text := some "hi" }

/-- An arrow-tipped edge `f -> t` (default `toEnd` behaviour of Canvas:
`toEnd` present as `"arrow"`, `fromEnd` absent), as used in the flow-order
examples. -/
def arrowEdge (id f t : String) : CanvasEdge :=
  { id := id, fromNode := f, toNode := t, fromEnd := none, toEnd := some "arrow",
    color := none, label := none }

/-! ## Infrastructure: trimming -/

theorem dropWhile_eq_self_of_prefixed {p : Char → Bool} {t l : List Char}
    (h : t <+: l) (hl : l.dropWhile p = l) : t.dropWhile p = t := by
  cases t with
  | nil => simp
  | cons a t2 =>
    obtain ⟨r, hr⟩ := h
    subst hr
    by_cases hp : p a
    · exfalso
      rw [List.cons_append, List.dropWhile_cons_of_pos hp] at hl
      have hlen := (List.dropWhile_suffix (l := t2 ++ r) p).sublist.length_le
      have h2 := congrArg List.length hl
      rw [List.length_cons] at h2
      omega
    · simp [List.dropWhile_cons_of_neg hp]

/-- JavaScript `trim` is idempotent. -/
theorem jsTrim_idem (s : String) : jsTrim (jsTrim s) = jsTrim s := by
  apply String.ext
  show List.rdropWhile Char.isWhitespace
      (List.dropWhile Char.isWhitespace
        (List.rdropWhile Char.isWhitespace (List.dropWhile Char.isWhitespace s.data)))
    = List.rdropWhile Char.isWhitespace (List.dropWhile Char.isWhitespace s.data)
  rw [dropWhile_eq_self_of_prefixed (List.rdropWhile_prefix _ _) (List.dropWhile_idempotent _ _)]
  exact List.rdropWhile_idempotent _ _

theorem normalizedId_idem (s : String) : normalizedId (normalizedId s) = normalizedId s :=
  jsTrim_idem s

/-! ## Infrastructure: comparators as linear-order keys -/

theorem cmpv_ne_gt_iff {α : Type} [LinearOrder α] (x y : α) :
    (cmpv x y ≠ .gt) ↔ x ≤ y := by
  unfold cmpv
  rcases lt_trichotomy x y with h | h | h
  · rw [if_pos h]; simp [le_of_lt h]
  · subst h; rw [if_neg (lt_irrefl x), if_neg (lt_irrefl x)]; simp
  · rw [if_neg (lt_asymm h), if_pos h]; simp [not_le_of_lt h]

theorem cmpv_eq_eq_iff {α : Type} [LinearOrder α] (x y : α) :
    (cmpv x y = .eq) ↔ x = y := by
  unfold cmpv
  rcases lt_trichotomy x y with h | h | h
  · rw [if_pos h]; simp [ne_of_lt h]
  · subst h; rw [if_neg (lt_irrefl x), if_neg (lt_irrefl x)]; simp
  · rw [if_neg (lt_asymm h), if_pos h]; simp [ne_of_gt h]

theorem strLtList_iff : ∀ l₁ l₂ : List Char, strLtList l₁ l₂ = true ↔ l₁ < l₂
  | [], [] => by
    constructor
    · intro h; simp [strLtList] at h
    · intro h; cases h
  | [], b :: bs => by
    constructor
    · intro _; exact List.Lex.nil
    · intro _; rfl
  | a :: as, [] => by
    constructor
    · intro h; simp [strLtList] at h
    · intro h; cases h
  | a :: as, b :: bs => by
    rcases Nat.lt_trichotomy a.toNat b.toNat with h | h | h
    · unfold strLtList
      rw [if_pos h]
      constructor
      · intro _; exact List.Lex.rel h
      · intro _; rfl
    · have hab : a = b := Char.ext (UInt32.ext h)
      subst hab
      unfold strLtList
      rw [if_neg (lt_irrefl _), if_neg (lt_irrefl _)]
      rw [strLtList_iff as bs]
      constructor
      · intro hh; exact List.Lex.cons hh
      · intro hh
        cases hh with
        | cons h3 => exact h3
        | rel h1 => exact absurd (show a.toNat < a.toNat from h1) (lt_irrefl _)
    · unfold strLtList
      rw [if_neg (Nat.lt_asymm h), if_pos h]
      constructor
      · intro hh; cases hh
      · intro hh
        cases hh with
        | cons h3 => exact absurd h (lt_irrefl _)
        | rel h1 => exact absurd h (Nat.lt_asymm h1)

theorem strLt_iff (a b : String) : strLt a b = true ↔ a < b := by
  rw [String.lt_iff_toList_lt]
  exact strLtList_iff a.data b.data

theorem cmpv_of_blt {α : Type} [LinearOrder α] (blt : α → α → Bool)
    (hb : ∀ x y, blt x y = true ↔ x < y) (x y : α) :
    (if blt x y then Ordering.lt else if blt y x then Ordering.gt else Ordering.eq)
      = cmpv x y := by
  unfold cmpv
  rcases lt_trichotomy x y with h | h | h
  · rw [if_pos ((hb x y).mpr h), if_pos h]
  · subst h
    have h1 : blt x x = false := by
      rw [← Bool.not_eq_true]
      intro hh
      exact lt_irrefl x ((hb x x).mp hh)
    simp [h1, lt_irrefl]
  · have h1 : blt x y = false := by
      rw [← Bool.not_eq_true]
      intro hh
      exact lt_asymm h ((hb x y).mp hh)
    simp [h1, (hb y x).mpr h, h, lt_asymm h, not_lt_of_lt h]

theorem cmpString_eq_cmpv (a b : String) : cmpString a b = cmpv a b :=
  cmpv_of_blt strLt strLt_iff a b

/-- One early-return stage `if x ≠ y then cmpv x y else cmpv u v` equals the
`cmpv` of the lexicographic pairing. -/
theorem stage_eq_cmpv {α β : Type} [LinearOrder α] [LinearOrder β]
    (x y : α) (u v : β) [Decidable (x ≠ y)] :
    (if x ≠ y then cmpv x y else cmpv u v)
      = cmpv (toLex (x, u)) (toLex (y, v)) := by
  unfold cmpv
  rcases lt_trichotomy x y with h | h | h
  · have h1 : toLex (x, u) < toLex (y, v) := by rw [Prod.Lex.lt_iff]; exact Or.inl h
    rw [if_pos (ne_of_lt h), if_pos h, if_pos h1]
  · subst h
    rw [if_neg (fun hh => hh rfl)]
    rcases lt_trichotomy u v with h2 | h2 | h2
    · have hx : toLex (x, u) < toLex (x, v) := by
        rw [Prod.Lex.lt_iff]; exact Or.inr ⟨rfl, h2⟩
      rw [if_pos h2, if_pos hx]
    · subst h2
      rw [if_neg (lt_irrefl u), if_neg (lt_irrefl u),
        if_neg (lt_irrefl (toLex (x, u))), if_neg (lt_irrefl (toLex (x, u)))]
    · have hx : ¬ toLex (x, u) < toLex (x, v) := by
        rw [Prod.Lex.lt_iff]
        rintro (hh | ⟨-, hh⟩)
        · exact lt_irrefl _ hh
        · exact lt_asymm h2 hh
      have hy : toLex (x, v) < toLex (x, u) := by
        rw [Prod.Lex.lt_iff]; exact Or.inr ⟨rfl, h2⟩
      rw [if_neg (lt_asymm h2), if_pos h2, if_neg hx, if_pos hy]
  · have h1 : ¬ toLex (x, u) < toLex (y, v) := by
      rw [Prod.Lex.lt_iff]
      rintro (hh | ⟨hh, -⟩)
      · exact lt_asymm h hh
      · exact ne_of_gt h hh
    have h2 : toLex (y, v) < toLex (x, u) := by rw [Prod.Lex.lt_iff]; exact Or.inl h
    rw [if_pos (ne_of_gt h), if_neg (lt_asymm h), if_pos h, if_neg h1, if_pos h2]

/-- Key of the baseline (not within-group) node-comparator tail: spatial
`y`, `x`, type priority, lowercase color (constant when color sorting is
off), semantic sort key. -/
def nodeKeyBase (s : CompileSettings) (n : CanvasNode) :
    Int ×ₗ Int ×ₗ Int ×ₗ String ×ₗ String :=
  toLex (numOr0 n.y,
    toLex (numOr0 n.x,
      toLex (getNodeTypePriority n,
        toLex ((if s.colorSortNodes ≠ some false then getNodeColor n else ""),
          getNodeSortKey n))))

/-- Key of the within-group node-comparator tail: type priority, lowercase
color (constant when color sorting is off), semantic sort key. -/
def nodeKeyGroup (s : CompileSettings) (n : CanvasNode) :
    Int ×ₗ String ×ₗ String :=
  toLex (getNodeTypePriority n,
    toLex ((if s.colorSortNodes ≠ some false then getNodeColor n else ""),
      getNodeSortKey n))

theorem compareNodesTail_false_eq (s : CompileSettings) (a b : CanvasNode) :
    compareNodesTail s false a b = cmpv (nodeKeyBase s a) (nodeKeyBase s b) := by
  have color_stage :
      (if s.colorSortNodes ≠ some false ∧ getNodeColor a ≠ getNodeColor b then
        cmpString (getNodeColor a) (getNodeColor b)
      else cmpString (getNodeSortKey a) (getNodeSortKey b))
      = (if (if s.colorSortNodes ≠ some false then getNodeColor a else "")
            ≠ (if s.colorSortNodes ≠ some false then getNodeColor b else "") then
          cmpv (if s.colorSortNodes ≠ some false then getNodeColor a else "")
            (if s.colorSortNodes ≠ some false then getNodeColor b else "")
        else cmpv (getNodeSortKey a) (getNodeSortKey b)) := by
    by_cases hc : s.colorSortNodes = some false <;> simp [hc, cmpString_eq_cmpv]
  show (let ay := numOr0 a.y
    let by_ := numOr0 b.y
    if ay ≠ by_ then cmpInt ay by_
    else
      let ax := numOr0 a.x
      let bx := numOr0 b.x
      if ax ≠ bx then cmpInt ax bx
      else
        let aP := getNodeTypePriority a
        let bP := getNodeTypePriority b
        if aP ≠ bP then cmpInt aP bP
        else if s.colorSortNodes ≠ some false ∧ getNodeColor a ≠ getNodeColor b then
          cmpString (getNodeColor a) (getNodeColor b)
        else cmpString (getNodeSortKey a) (getNodeSortKey b)) = _
  simp only []
  rw [color_stage]
  unfold cmpInt
  rw [stage_eq_cmpv, stage_eq_cmpv, stage_eq_cmpv, stage_eq_cmpv]
  rfl

theorem compareNodesTail_true_eq (s : CompileSettings) (a b : CanvasNode) :
    compareNodesTail s true a b = cmpv (nodeKeyGroup s a) (nodeKeyGroup s b) := by
  have color_stage :
      (if s.colorSortNodes ≠ some false ∧ getNodeColor a ≠ getNodeColor b then
        cmpString (getNodeColor a) (getNodeColor b)
      else cmpString (getNodeSortKey a) (getNodeSortKey b))
      = (if (if s.colorSortNodes ≠ some false then getNodeColor a else "")
            ≠ (if s.colorSortNodes ≠ some false then getNodeColor b else "") then
          cmpv (if s.colorSortNodes ≠ some false then getNodeColor a else "")
            (if s.colorSortNodes ≠ some false then getNodeColor b else "")
        else cmpv (getNodeSortKey a) (getNodeSortKey b)) := by
    by_cases hc : s.colorSortNodes = some false <;> simp [hc, cmpString_eq_cmpv]
  show (let aP := getNodeTypePriority a
    let bP := getNodeTypePriority b
    if aP ≠ bP then cmpInt aP bP
    else if s.colorSortNodes ≠ some false ∧ getNodeColor a ≠ getNodeColor b then
      cmpString (getNodeColor a) (getNodeColor b)
    else cmpString (getNodeSortKey a) (getNodeSortKey b)) = _
  simp only []
  rw [color_stage]
  unfold cmpInt
  rw [stage_eq_cmpv, stage_eq_cmpv]
  rfl

/-- With flow-aware sorting disabled the full node comparator is its tail. -/
theorem compareNodes_flowOff (s : CompileSettings) (hs : s.flowSortNodes ≠ some true)
    (w : Bool) (fg : List FlowGroup) (n2g : SMap Nat) (a b : CanvasNode) :
    compareNodes s w fg n2g a b = compareNodesTail s w a b := by
  unfold compareNodes
  rw [if_neg hs]

/-- Key of the edge comparator with flow-aware sorting disabled: source
`(y, x)`, target `(y, x)`, lowercase color (constant when edge color sorting
is off), trimmed edge id. -/
def edgeKey (s : CompileSettings) (nodePositions : SMap NodePosition) (e : CanvasEdge) :
    Int ×ₗ Int ×ₗ Int ×ₗ Int ×ₗ String ×ₗ String :=
  toLex (numOr0 ((mget nodePositions (normalizedId e.fromNode)).bind fun p => p.y),
    toLex (numOr0 ((mget nodePositions (normalizedId e.fromNode)).bind fun p => p.x),
      toLex (numOr0 ((mget nodePositions (normalizedId e.toNode)).bind fun p => p.y),
        toLex (numOr0 ((mget nodePositions (normalizedId e.toNode)).bind fun p => p.x),
          toLex ((if s.colorSortEdges ≠ some false then getEdgeColor e else ""),
            normalizedId e.id)))))

theorem compareEdges_flowOff_eq (s : CompileSettings) (hs : s.flowSortNodes ≠ some true)
    (fg : List FlowGroup) (n2g : SMap Nat) (pos : SMap NodePosition) (a b : CanvasEdge) :
    compareEdges s fg n2g pos a b = cmpv (edgeKey s pos a) (edgeKey s pos b) := by
  have color_stage :
      (if s.colorSortEdges ≠ some false ∧ getEdgeColor a ≠ getEdgeColor b then
        cmpString (getEdgeColor a) (getEdgeColor b)
      else cmpString (normalizedId a.id) (normalizedId b.id))
      = (if (if s.colorSortEdges ≠ some false then getEdgeColor a else "")
            ≠ (if s.colorSortEdges ≠ some false then getEdgeColor b else "") then
          cmpv (if s.colorSortEdges ≠ some false then getEdgeColor a else "")
            (if s.colorSortEdges ≠ some false then getEdgeColor b else "")
        else cmpv (normalizedId a.id) (normalizedId b.id)) := by
    by_cases hc : s.colorSortEdges = some false <;> simp [hc, cmpString_eq_cmpv]
  show (let aFromId := normalizedId a.fromNode
    let bFromId := normalizedId b.fromNode
    let aToId := normalizedId a.toNode
    let bToId := normalizedId b.toNode
    let tail :=
      let aFrom := mget pos aFromId
      let bFrom := mget pos bFromId
      let afy := numOr0 (aFrom.bind fun p => p.y)
      let bfy := numOr0 (bFrom.bind fun p => p.y)
      if afy ≠ bfy then cmpInt afy bfy
      else
        let afx := numOr0 (aFrom.bind fun p => p.x)
        let bfx := numOr0 (bFrom.bind fun p => p.x)
        if afx ≠ bfx then cmpInt afx bfx
        else
          let aTo := mget pos aToId
          let bTo := mget pos bToId
          let aty := numOr0 (aTo.bind fun p => p.y)
          let bty := numOr0 (bTo.bind fun p => p.y)
          if aty ≠ bty then cmpInt aty bty
          else
            let atx := numOr0 (aTo.bind fun p => p.x)
            let btx := numOr0 (bTo.bind fun p => p.x)
            if atx ≠ btx then cmpInt atx btx
            else if s.colorSortEdges ≠ some false ∧ getEdgeColor a ≠ getEdgeColor b then
              cmpString (getEdgeColor a) (getEdgeColor b)
            else cmpString (normalizedId a.id) (normalizedId b.id)
    if s.flowSortNodes = some true ∧ n2g ≠ [] then
      let groupAt := fun (i : Nat) =>
        (fg[i]?).getD { nodes := [], minY := 0, minX := 0, flowOrder := [] }
      let fromCmp :=
        match mget n2g aFromId, mget n2g bFromId with
        | some gia, some gib =>
          cmpDepthInf (mget (groupAt gia).flowOrder aFromId) (mget (groupAt gib).flowOrder bFromId)
        | _, _ => .eq
      if fromCmp ≠ .eq then fromCmp
      else
        let toCmp :=
          match mget n2g aToId, mget n2g bToId with
          | some gia, some gib =>
            cmpDepthInf (mget (groupAt gia).flowOrder aToId) (mget (groupAt gib).flowOrder bToId)
          | _, _ => .eq
        if toCmp ≠ .eq then toCmp else tail
    else tail) = _
  simp only []
  rw [if_neg (by rintro ⟨h, -⟩; exact hs h)]
  rw [color_stage]
  unfold cmpInt
  rw [stage_eq_cmpv, stage_eq_cmpv, stage_eq_cmpv, stage_eq_cmpv, stage_eq_cmpv]
  rfl

/-! ## Infrastructure: stable sort facts -/

theorem jsMerge_eq_merge {α : Type} (le : α → α → Bool) :
    ∀ (fuel : Nat) (xs ys : List α), xs.length + ys.length ≤ fuel →
      jsMerge le fuel xs ys = List.merge xs ys le := by
  intro fuel
  induction fuel with
  | zero =>
    intro xs ys h
    match xs, ys with
    | [], [] => simp [jsMerge]
    | [], y :: ys => exfalso; simp at h
    | x :: xs, ys => exfalso; simp at h
  | succ fuel ih =>
    intro xs ys h
    match xs, ys with
    | [], ys => simp [jsMerge]
    | x :: xs, [] => simp [jsMerge]
    | x :: xs, y :: ys =>
      rw [List.cons_merge_cons]
      show (if le x y then x :: jsMerge le fuel xs (y :: ys)
        else y :: jsMerge le fuel (x :: xs) ys) = _
      simp only [List.length_cons] at h
      by_cases hle : le x y
      · rw [if_pos hle, if_pos hle, ih xs (y :: ys) (by simp; omega)]
      · rw [if_neg hle, if_neg hle, ih (x :: xs) ys (by simp; omega)]

theorem jsSortFuel_eq_mergeSort {α : Type} (le : α → α → Bool) :
    ∀ (fuel : Nat) (l : List α), l.length ≤ fuel + 1 → jsSortFuel le fuel l = l.mergeSort le := by
  intro fuel
  induction fuel with
  | zero =>
    intro l hl
    match l, hl with
    | [], _ => simp [jsSortFuel]
    | [a], _ => simp [jsSortFuel]
  | succ fuel ih =>
    intro l hl
    match l with
    | [] => simp [jsSortFuel]
    | [a] => simp [jsSortFuel]
    | a :: b :: xs =>
      rw [List.mergeSort]
      have h1 : ((a :: b :: xs).take (((a :: b :: xs).length + 1) / 2)).length ≤ fuel + 1 := by
        simp at hl ⊢
        omega
      have h2 : ((a :: b :: xs).drop (((a :: b :: xs).length + 1) / 2)).length ≤ fuel + 1 := by
        simp at hl ⊢
        omega
      show jsMerge le (a :: b :: xs).length (jsSortFuel le fuel _) (jsSortFuel le fuel _) = _
      rw [ih _ h1, ih _ h2,
        jsMerge_eq_merge le _ _ _ (by
          rw [List.length_mergeSort, List.length_mergeSort, List.length_take, List.length_drop]
          simp
          omega),
        List.splitInTwo_fst, List.splitInTwo_snd]

theorem jsSort_eq_mergeSort {α : Type} (le : α → α → Bool) (l : List α) :
    jsSort le l = l.mergeSort le :=
  jsSortFuel_eq_mergeSort le l.length l (by omega)

/-- The Boolean `le` induced by a comparator that is `cmpv` of a key. -/
def keyLe {α K : Type} [LinearOrder K] (f : α → K) : α → α → Bool :=
  fun a b => cmpv (f a) (f b) ≠ .gt

theorem keyLe_iff {α K : Type} [LinearOrder K] (f : α → K) (a b : α) :
    keyLe f a b = true ↔ f a ≤ f b := by
  unfold keyLe
  rw [decide_eq_true_eq, cmpv_ne_gt_iff]

theorem keyLe_trans {α K : Type} [LinearOrder K] (f : α → K) :
    ∀ a b c, keyLe f a b → keyLe f b c → keyLe f a c := by
  intro a b c hab hbc
  rw [keyLe_iff] at hab hbc ⊢
  exact le_trans hab hbc

theorem keyLe_total {α K : Type} [LinearOrder K] (f : α → K) :
    ∀ a b, keyLe f a b || keyLe f b a := by
  intro a b
  rcases le_total (f a) (f b) with h | h
  · rw [Bool.or_eq_true]; exact Or.inl ((keyLe_iff f a b).mpr h)
  · rw [Bool.or_eq_true]; exact Or.inr ((keyLe_iff f b a).mpr h)

/-- Sorting a key-sorted list again is the identity, so key-based stable
sorting is idempotent. -/
theorem mergeSort_keyLe_idem {α K : Type} [LinearOrder K] (f : α → K) (l : List α) :
    (l.mergeSort (keyLe f)).mergeSort (keyLe f) = l.mergeSort (keyLe f) :=
  List.mergeSort_of_sorted (List.sorted_mergeSort (keyLe_trans f) (keyLe_total f) l)

/-- Two sorted lists that are permutations of each other coincide, given
antisymmetry of `le` on the members (local version: the comparators here are
antisymmetric only on elements with distinct identity keys). -/
theorem eq_of_perm_of_pairwise {α : Type} (le : α → α → Bool) :
    ∀ {l₁ l₂ : List α},
      (∀ a ∈ l₁, ∀ b ∈ l₁, le a b = true → le b a = true → a = b) →
      List.Perm l₁ l₂ → l₁.Pairwise (le · ·) → l₂.Pairwise (le · ·) → l₁ = l₂
  | [], _, _, p, _, _ => p.nil_eq
  | a :: t₁, [], _, p, _, _ => absurd p.eq_nil (List.cons_ne_nil a t₁)
  | a :: t₁, b :: t₂, anti, p, s₁, s₂ => by
    by_cases hab : a = b
    · subst hab
      have pt : List.Perm t₁ t₂ := (List.perm_cons a).mp p
      have ih := eq_of_perm_of_pairwise le
        (fun x hx y hy => anti x (List.mem_cons_of_mem a hx) y (List.mem_cons_of_mem a hy))
        pt (List.Pairwise.sublist (List.sublist_cons_self a t₁) s₁)
        (List.Pairwise.sublist (List.sublist_cons_self a t₂) s₂)
      rw [ih]
    · exfalso
      have hbmem : b ∈ a :: t₁ := p.symm.subset (List.mem_cons_self b t₂)
      have hamem : a ∈ b :: t₂ := p.subset (List.mem_cons_self a t₁)
      have hb1 : b ∈ t₁ := by
        rcases List.mem_cons.mp hbmem with h | h
        · exact absurd h.symm hab
        · exact h
      have ha2 : a ∈ t₂ := by
        rcases List.mem_cons.mp hamem with h | h
        · exact absurd h hab
        · exact h
      have hab' : le a b = true := (List.pairwise_cons.mp s₁).1 b hb1
      have hba : le b a = true := (List.pairwise_cons.mp s₂).1 a ha2
      exact hab (anti a (List.mem_cons_self a t₁) b hbmem hab' hba)

/-! ## Infrastructure: validation characterizations -/

/-- Success test for the `Except`-modelled transforms. -/
def isOkE {ε α : Type} : Except ε α → Bool
  | .ok _ => true
  | .error _ => false

theorem isOkE_iff {ε α : Type} (r : Except ε α) :
    isOkE r = true ↔ ∃ v, r = .ok v := by
  cases r <;> simp [isOkE]

theorem checkNodes_ok (ns : List CanvasNode) (seen : List String)
    (h1 : ∀ n ∈ ns, normalizedId n.id ≠ "")
    (h2 : (ns.map fun n => normalizedId n.id).Nodup)
    (h3 : ∀ n ∈ ns, normalizedId n.id ∉ seen) :
    checkNodes ns seen = .ok (seen ++ ns.map fun n => normalizedId n.id) := by
  induction ns generalizing seen with
  | nil => simp [checkNodes]
  | cons n rest ih =>
    rw [List.map_cons, List.nodup_cons] at h2
    have hnot : ∀ m ∈ rest, normalizedId m.id ∉ seen ++ [normalizedId n.id] := by
      intro m hm hmem
      rcases List.mem_append.mp hmem with h | h
      · exact h3 m (List.mem_cons_of_mem n hm) h
      · rw [List.mem_singleton] at h
        exact h2.1 (h ▸ List.mem_map_of_mem (fun x => normalizedId x.id) hm)
    unfold checkNodes
    rw [if_neg (h1 n (List.mem_cons_self n rest)),
      if_neg (h3 n (List.mem_cons_self n rest)),
      ih (seen ++ [normalizedId n.id]) (fun m hm => h1 m (List.mem_cons_of_mem n hm))
        h2.2 hnot]
    simp

theorem checkNodes_isOk_iff (ns : List CanvasNode) (seen : List String) :
    isOkE (checkNodes ns seen) = true ↔
      (∀ n ∈ ns, normalizedId n.id ≠ "") ∧
      (ns.map fun n => normalizedId n.id).Nodup ∧
      ∀ n ∈ ns, normalizedId n.id ∉ seen := by
  constructor
  · intro h
    induction ns generalizing seen with
    | nil => simp
    | cons n rest ih =>
      unfold checkNodes at h
      by_cases he : normalizedId n.id = ""
      · rw [if_pos he] at h; simp [isOkE] at h
      · rw [if_neg he] at h
        by_cases hs : normalizedId n.id ∈ seen
        · rw [if_pos hs] at h; simp [isOkE] at h
        · rw [if_neg hs] at h
          obtain ⟨r1, r2, r3⟩ := ih (seen ++ [normalizedId n.id]) h
          refine ⟨?_, ?_, ?_⟩
          · intro m hm
            rcases List.mem_cons.mp hm with hm | hm
            · exact hm ▸ he
            · exact r1 m hm
          · rw [List.map_cons, List.nodup_cons]
            refine ⟨?_, r2⟩
            intro hmem
            obtain ⟨m, hm, hid⟩ := List.mem_map.mp hmem
            exact r3 m hm (List.mem_append_right seen (List.mem_singleton.mpr hid))
          · intro m hm
            rcases List.mem_cons.mp hm with hm | hm
            · exact hm ▸ hs
            · intro hmem
              exact r3 m hm (List.mem_append_left _ hmem)
  · rintro ⟨h1, h2, h3⟩
    rw [checkNodes_ok ns seen h1 h2 h3]
    rfl

theorem checkEdges_ok (nodeIds : List String) (es : List CanvasEdge) (seen : List String)
    (h1 : ∀ e ∈ es, normalizedId e.id ≠ "")
    (h2 : (es.map fun e => normalizedId e.id).Nodup)
    (h3 : ∀ e ∈ es, normalizedId e.id ∉ seen)
    (h4 : ∀ e ∈ es, normalizedId e.fromNode ≠ "" ∧ normalizedId e.toNode ≠ "")
    (h5 : ∀ e ∈ es, normalizedId e.fromNode ∈ nodeIds ∧ normalizedId e.toNode ∈ nodeIds) :
    checkEdges nodeIds es seen = .ok () := by
  induction es generalizing seen with
  | nil => simp [checkEdges]
  | cons e rest ih =>
    rw [List.map_cons, List.nodup_cons] at h2
    have hm := List.mem_cons_self e rest
    have hnot : ∀ m ∈ rest, normalizedId m.id ∉ seen ++ [normalizedId e.id] := by
      intro m hmm hmem
      rcases List.mem_append.mp hmem with h | h
      · exact h3 m (List.mem_cons_of_mem e hmm) h
      · rw [List.mem_singleton] at h
        exact h2.1 (h ▸ List.mem_map_of_mem (fun x => normalizedId x.id) hmm)
    unfold checkEdges
    rw [if_neg (h1 e hm), if_neg (h3 e hm),
      if_neg (by
        rintro (h | h)
        · exact (h4 e hm).1 h
        · exact (h4 e hm).2 h),
      if_neg (by intro h; exact h (h5 e hm).1),
      if_neg (by intro h; exact h (h5 e hm).2)]
    exact ih (seen ++ [normalizedId e.id])
      (fun m hmm => h1 m (List.mem_cons_of_mem e hmm)) h2.2 hnot
      (fun m hmm => h4 m (List.mem_cons_of_mem e hmm))
      (fun m hmm => h5 m (List.mem_cons_of_mem e hmm))

theorem checkEdges_isOk_iff (nodeIds : List String) (es : List CanvasEdge)
    (seen : List String) :
    isOkE (checkEdges nodeIds es seen) = true ↔
      (∀ e ∈ es, normalizedId e.id ≠ "") ∧
      (es.map fun e => normalizedId e.id).Nodup ∧
      (∀ e ∈ es, normalizedId e.id ∉ seen) ∧
      (∀ e ∈ es, normalizedId e.fromNode ≠ "" ∧ normalizedId e.toNode ≠ "") ∧
      (∀ e ∈ es, normalizedId e.fromNode ∈ nodeIds ∧ normalizedId e.toNode ∈ nodeIds) := by
  constructor
  · intro h
    induction es generalizing seen with
    | nil => simp
    | cons e rest ih =>
      unfold checkEdges at h
      by_cases he : normalizedId e.id = ""
      · rw [if_pos he] at h; simp [isOkE] at h
      · rw [if_neg he] at h
        by_cases hs : normalizedId e.id ∈ seen
        · rw [if_pos hs] at h; simp [isOkE] at h
        · rw [if_neg hs] at h
          by_cases hft : normalizedId e.fromNode = "" ∨ normalizedId e.toNode = ""
          · rw [if_pos hft] at h; simp [isOkE] at h
          · rw [if_neg hft] at h
            push_neg at hft
            by_cases hf : normalizedId e.fromNode ∈ nodeIds
            · rw [if_neg (by intro hh; exact hh hf)] at h
              by_cases ht : normalizedId e.toNode ∈ nodeIds
              · rw [if_neg (by intro hh; exact hh ht)] at h
                obtain ⟨r1, r2, r3, r4, r5⟩ := ih (seen ++ [normalizedId e.id]) h
                refine ⟨?_, ?_, ?_, ?_, ?_⟩
                · intro m hm
                  rcases List.mem_cons.mp hm with hm | hm
                  · exact hm ▸ he
                  · exact r1 m hm
                · rw [List.map_cons, List.nodup_cons]
                  refine ⟨?_, r2⟩
                  intro hmem
                  obtain ⟨m, hm, hid⟩ := List.mem_map.mp hmem
                  exact r3 m hm (List.mem_append_right seen (List.mem_singleton.mpr hid))
                · intro m hm
                  rcases List.mem_cons.mp hm with hm | hm
                  · exact hm ▸ hs
                  · intro hmem
                    exact r3 m hm (List.mem_append_left _ hmem)
                · intro m hm
                  rcases List.mem_cons.mp hm with hm | hm
                  · exact hm ▸ hft
                  · exact r4 m hm
                · intro m hm
                  rcases List.mem_cons.mp hm with hm | hm
                  · exact hm ▸ ⟨hf, ht⟩
                  · exact r5 m hm
              · rw [if_pos (by intro hh; exact ht hh)] at h
                simp [isOkE] at h
            · rw [if_pos (by intro hh; exact hf hh)] at h
              simp [isOkE] at h
  · rintro ⟨h1, h2, h3, h4, h5⟩
    rw [checkEdges_ok nodeIds es seen h1 h2 h3 h4 h5]
    rfl


/-- `checkNodes` can only fail with a message that has some input node's
normalized id as an infix (the `"node missing id"` message corresponds to a
node whose id trims to the empty string, an infix of every message). -/
theorem checkNodes_error_infix (ns : List CanvasNode) (seen : List String) (msg : String)
    (h : checkNodes ns seen = .error msg) :
    ∃ n ∈ ns, (normalizedId n.id).data <:+: msg.data := by
  induction ns generalizing seen with
  | nil => simp [checkNodes] at h
  | cons n rest ih =>
    unfold checkNodes at h
    by_cases he : normalizedId n.id = ""
    · rw [if_pos he] at h
      refine ⟨n, List.mem_cons_self n rest, ?_⟩
      rw [he]
      simp [Except.error.injEq] at h
      simp
    · rw [if_neg he] at h
      by_cases hs : normalizedId n.id ∈ seen
      · rw [if_pos hs] at h
        simp [Except.error.injEq] at h
        refine ⟨n, List.mem_cons_self n rest, ?_⟩
        rw [← h, String.data_append]
        exact (List.suffix_append _ _).isInfix
      · rw [if_neg hs] at h
        obtain ⟨m, hm, hinf⟩ := ih (seen ++ [normalizedId n.id]) h
        exact ⟨m, List.mem_cons_of_mem n hm, hinf⟩

/-- `checkEdges` can only fail with a message that has some input edge's
normalized id as an infix. -/
theorem checkEdges_error_infix (nodeIds : List String) (es : List CanvasEdge)
    (seen : List String) (msg : String)
    (h : checkEdges nodeIds es seen = .error msg) :
    ∃ e ∈ es, (normalizedId e.id).data <:+: msg.data := by
  induction es generalizing seen with
  | nil => simp [checkEdges] at h
  | cons e rest ih =>
    unfold checkEdges at h
    by_cases he : normalizedId e.id = ""
    · rw [if_pos he] at h
      refine ⟨e, List.mem_cons_self e rest, ?_⟩
      rw [he]
      simp
    · rw [if_neg he] at h
      by_cases hs : normalizedId e.id ∈ seen
      · rw [if_pos hs] at h
        simp [Except.error.injEq] at h
        refine ⟨e, List.mem_cons_self e rest, ?_⟩
        rw [← h, String.data_append]
        exact (List.suffix_append _ _).isInfix
      · rw [if_neg hs] at h
        by_cases hft : normalizedId e.fromNode = "" ∨ normalizedId e.toNode = ""
        · rw [if_pos hft] at h
          simp [Except.error.injEq] at h
          refine ⟨e, List.mem_cons_self e rest, ?_⟩
          rw [← h, String.data_append, String.data_append]
          exact List.infix_append _ _ _
        · rw [if_neg hft] at h
          by_cases hf : ¬ normalizedId e.fromNode ∈ nodeIds
          · rw [if_pos hf] at h
            simp [Except.error.injEq] at h
            refine ⟨e, List.mem_cons_self e rest, ?_⟩
            rw [← h, String.data_append, String.data_append, String.data_append]
            exact ((List.infix_append _ _ _).trans
              (List.prefix_append _ _).isInfix : _)
          · rw [if_neg hf] at h
            by_cases ht : ¬ normalizedId e.toNode ∈ nodeIds
            · rw [if_pos ht] at h
              simp [Except.error.injEq] at h
              refine ⟨e, List.mem_cons_self e rest, ?_⟩
              rw [← h, String.data_append, String.data_append, String.data_append]
              exact ((List.infix_append _ _ _).trans
                (List.prefix_append _ _).isInfix : _)
            · rw [if_neg ht] at h
              obtain ⟨m, hm, hinf⟩ := ih (seen ++ [normalizedId e.id]) h
              exact ⟨m, List.mem_cons_of_mem e hm, hinf⟩

/-- `compileCanvasAll` unfolded to explicit `Except.bind`/`Except.map` on
its two validation passes. -/
theorem compileCanvasAll_def (input : CanvasData) (settings : CompileSettings) :
    compileCanvasAll input settings =
      Except.bind (checkNodes (input.nodes.getD []) [])
        (fun nodeIds => Except.map
          (fun _ =>
            { nodes := some (flattenHierarchical (input.nodes.getD [])
                             (buildHierarchy (input.nodes.getD [])) settings (input.edges.getD [])
                             (nodePositionsOf (input.nodes.getD []))),
              edges := some (stableEdgeSortByTopology (input.edges.getD [])
                             (nodePositionsOf (input.nodes.getD [])) settings (input.nodes.getD [])) })
          (checkEdges nodeIds (input.edges.getD []) [])) := rfl

/-- The success condition of `compileCanvasAll` in full: both validation
passes succeed iff the document satisfies the integrity conditions over
trimmed identifiers. -/
theorem compileCanvasAll_isOk_iff (d : CanvasData) (s : CompileSettings) :
    isOkE (compileCanvasAll d s) = true ↔
      ((∀ n ∈ d.nodes.getD [], normalizedId n.id ≠ "") ∧
       ((d.nodes.getD []).map fun n => normalizedId n.id).Nodup ∧
       (∀ e ∈ d.edges.getD [], normalizedId e.id ≠ "") ∧
       ((d.edges.getD []).map fun e => normalizedId e.id).Nodup ∧
       (∀ e ∈ d.edges.getD [], normalizedId e.fromNode ≠ "" ∧ normalizedId e.toNode ≠ "") ∧
       (∀ e ∈ d.edges.getD [],
          normalizedId e.fromNode ∈ ((d.nodes.getD []).map fun n => normalizedId n.id) ∧
          normalizedId e.toNode ∈ ((d.nodes.getD []).map fun n => normalizedId n.id))) := by
  constructor
  · intro h
    rcases hn : checkNodes (d.nodes.getD []) [] with m | ids
    · rw [compileCanvasAll_def, hn] at h
      simp only [Except.bind, isOkE] at h
      exact absurd h Bool.false_ne_true
    · have hok : isOkE (checkNodes (d.nodes.getD []) []) = true := by rw [hn]; rfl
      obtain ⟨n1, n2, _⟩ := (checkNodes_isOk_iff _ _).mp hok
      have hids : ids = (d.nodes.getD []).map fun n => normalizedId n.id := by
        have h2 := checkNodes_ok (d.nodes.getD []) [] n1 n2 (by simp)
        rw [hn] at h2
        simpa using h2
      rcases he2 : checkEdges ids (d.edges.getD []) [] with m | u
      · rw [compileCanvasAll_def, hn] at h
        simp only [Except.bind, he2, Except.map, isOkE] at h
        exact absurd h Bool.false_ne_true
      · have heok : isOkE (checkEdges ids (d.edges.getD []) []) = true := by rw [he2]; rfl
        obtain ⟨e1, e2, _, e4, e5⟩ := (checkEdges_isOk_iff _ _ _).mp heok
        rw [hids] at e5
        exact ⟨n1, n2, e1, e2, e4, e5⟩
  · rintro ⟨n1, n2, e1, e2, e4, e5⟩
    have hn := checkNodes_ok (d.nodes.getD []) [] n1 n2 (by simp)
    have he := checkEdges_ok ((d.nodes.getD []).map fun n => normalizedId n.id)
      (d.edges.getD []) [] e1 e2 (by simp) e4 e5
    rw [compileCanvasAll_def]
    simp only [List.nil_append] at hn
    rw [hn]
    simp only [Except.bind, he, Except.map, isOkE]

/-- A successful `mget` exhibits a member of the map. -/
theorem mget_mem {α : Type} {m : SMap α} {k : String} {l : α}
    (h : mget m k = some l) : (k, l) ∈ m := by
  induction m with
  | nil => simp [mget] at h
  | cons p rest ih =>
    rw [mget, List.lookup_cons] at h
    by_cases hk : k = p.1
    · simp only [hk, beq_self_eq_true, Option.some.injEq] at h
      subst hk
      subst h
      exact List.mem_cons_self p rest
    · simp only [beq_eq_false_iff_ne.mpr hk] at h
      exact List.mem_cons_of_mem p (ih h)

/-- `mpush` preserves a property of all stored entries when the pushed
entry satisfies it. -/
theorem mpush_forall {α : Type} {Q : α → Prop} {m : SMap (List α)} {k : String} {v : α}
    (hm : ∀ p ∈ m, ∀ r ∈ p.2, Q r) (hv : Q v) :
    ∀ p ∈ mpush m k v, ∀ r ∈ p.2, Q r := by
  unfold mpush
  by_cases hs : (mget m k).isSome
  · rw [if_pos hs]
    clear hs
    induction m with
    | nil => simp [mupd]
    | cons p rest ih =>
      rw [mupd]
      intro q hq r hr
      by_cases hk : p.1 = k
      · rw [if_pos hk] at hq
        rcases List.mem_cons.mp hq with hq | hq
        · subst hq
          rcases List.mem_append.mp hr with hr | hr
          · exact hm p (List.mem_cons_self p rest) r hr
          · rw [List.mem_singleton] at hr
            exact hr ▸ hv
        · exact hm q (List.mem_cons_of_mem p hq) r hr
      · rw [if_neg hk] at hq
        rcases List.mem_cons.mp hq with hq | hq
        · exact hm q (hq ▸ List.mem_cons_self p rest) r hr
        · exact ih (fun q2 hq2 => hm q2 (List.mem_cons_of_mem p hq2)) q hq r hr
  · rw [if_neg hs]
    intro q hq r hr
    rcases List.mem_append.mp hq with hq | hq
    · exact hm q hq r hr
    · rw [List.mem_singleton] at hq
      subst hq
      rw [List.mem_singleton] at hr
      exact hr ▸ hv

/-- Every relation entry built by `processLabeledEdges` stores an already
trimmed node id (`normalizedId` is idempotent, so normalizing the stored id
is a no-op). -/
theorem processLabeledEdges_entries_trimmed (les : List CanvasEdge) (dir : String) :
    ∀ p ∈ processLabeledEdges les dir, ∀ r ∈ p.2, normalizedId r.node = r.node := by
  unfold processLabeledEdges
  have key : ∀ (m0 : SMap (List RelationEntry)),
      (∀ p ∈ m0, ∀ r ∈ p.2, normalizedId r.node = r.node) →
      ∀ p ∈ les.foldl
        (fun m edge =>
          let fromId := normalizedId edge.fromNode
          let toId := normalizedId edge.toNode
          let color := if isCustomColor edge.color then edge.color else none
          if dir = "to" then
            mpush m fromId { node := toId, label := edge.label, color := color }
          else if dir = "from" then
            mpush m toId { node := fromId, label := edge.label, color := color }
          else m) m0, ∀ r ∈ p.2, normalizedId r.node = r.node := by
    induction les with
    | nil => intro m0 hm0; simpa using hm0
    | cons e rest ih =>
      intro m0 hm0
      rw [List.foldl_cons]
      apply ih
      by_cases hto : dir = "to"
      · simp only [hto, if_pos]
        exact mpush_forall hm0 (normalizedId_idem e.toNode)
      · rw [if_neg hto]
        by_cases hfrom : dir = "from"
        · rw [if_pos hfrom]
          exact mpush_forall hm0 (normalizedId_idem e.fromNode)
        · rw [if_neg hfrom]
          exact hm0
  exact key [] (by simp)

/-! ## Infrastructure: edge-independence of node sorting with flow off -/

/-- With flow-aware sorting off, `stableSortByXY` ignores the edge array
entirely. -/
theorem stableSortByXY_flowOff (s : CompileSettings) (hs : s.flowSortNodes ≠ some true)
    (nodes : List CanvasNode) (edges : List CanvasEdge) (pos : SMap NodePosition) (w : Bool) :
    stableSortByXY nodes s edges pos w
      = jsSort (fun a b => compareNodesTail s w a b ≠ .gt) nodes := by
  simp only [stableSortByXY]
  rw [if_neg hs]
  congr 1
  funext a b
  rw [compareNodes_flowOff s hs]

theorem addNodeAndChildren_edges_eq (pm : SMap (List CanvasNode)) (s : CompileSettings)
    (hs : s.flowSortNodes ≠ some true) (e1 e2 : List CanvasEdge) (pos : SMap NodePosition) :
    ∀ (fuel : Nat) (n : CanvasNode) (st : List String × List CanvasNode),
      addNodeAndChildren pm s e1 pos fuel n st = addNodeAndChildren pm s e2 pos fuel n st := by
  intro fuel
  induction fuel with
  | zero => intro n st; rfl
  | succ fuel ih =>
    intro n st
    unfold addNodeAndChildren
    have hs2 : ({ s with colorSortNodes := some false } : CompileSettings).flowSortNodes
        ≠ some true := hs
    simp only [stableSortByXY_flowOff s hs, stableSortByXY_flowOff _ hs2]
    by_cases hmem : normalizedId n.id ∈ st.1
    · rw [if_pos hmem, if_pos hmem]
    · rw [if_neg hmem, if_neg hmem]
      by_cases hgr : n.type = "group" ∧ (mget pm (normalizedId n.id)).isSome
      · rw [if_pos hgr, if_pos hgr]
        rw [List.foldl_ext _ _ _ (fun st2 c hc => ih c st2),
          List.foldl_ext _ _ _ (fun st2 c hc => ih c st2)]
      · rw [if_neg hgr, if_neg hgr]

theorem flattenHierarchical_edges_eq (nodes : List CanvasNode) (pm : SMap (List CanvasNode))
    (s : CompileSettings) (hs : s.flowSortNodes ≠ some true)
    (e1 e2 : List CanvasEdge) (pos : SMap NodePosition) :
    flattenHierarchical nodes pm s e1 pos = flattenHierarchical nodes pm s e2 pos := by
  simp only [flattenHierarchical, stableSortByXY_flowOff s hs]
  rw [List.foldl_ext _ _ _ (fun st2 c hc => addNodeAndChildren_edges_eq pm s hs e1 e2 pos _ c st2),
    List.foldl_ext _ _ _ (fun st2 c hc => addNodeAndChildren_edges_eq pm s hs e1 e2 pos _ c st2)]

theorem checkEdges_ok_perm (nodeIds : List String) {es1 es2 : List CanvasEdge}
    (hp : List.Perm es1 es2) (h : checkEdges nodeIds es1 [] = .ok ()) :
    checkEdges nodeIds es2 [] = .ok () := by
  obtain ⟨h1, h2, h3, h4, h5⟩ := (checkEdges_isOk_iff nodeIds es1 []).mp (by rw [h]; rfl)
  exact checkEdges_ok nodeIds es2 []
    (fun e he => h1 e (hp.mem_iff.mpr he))
    ((hp.map fun e => normalizedId e.id).nodup_iff.mp h2)
    (by simp)
    (fun e he => h4 e (hp.mem_iff.mpr he))
    (fun e he => h5 e (hp.mem_iff.mpr he))

theorem edgeKey_id_component (s : CompileSettings) (pos : SMap NodePosition)
    (a b : CanvasEdge) (h : edgeKey s pos a = edgeKey s pos b) :
    normalizedId a.id = normalizedId b.id :=
  congrArg (fun k => (ofLex (ofLex (ofLex (ofLex (ofLex k).2).2).2).2).2) h

theorem stableEdgeSortByTopology_perm_eq (s : CompileSettings)
    (hs : s.flowSortNodes ≠ some true) (pos : SMap NodePosition) (nodes : List CanvasNode)
    {es1 es2 : List CanvasEdge} (hp : List.Perm es1 es2)
    (hnd : (es1.map fun e => normalizedId e.id).Nodup) :
    stableEdgeSortByTopology es1 pos s nodes = stableEdgeSortByTopology es2 pos s nodes := by
  have hfe : (fun a b => decide (compareEdges s
        (if s.flowSortNodes = some true then buildFlowGroups nodes es1 pos else [])
        (nodeToFlowGroupMap
          (if s.flowSortNodes = some true then buildFlowGroups nodes es1 pos else []))
        pos a b ≠ .gt))
      = keyLe (edgeKey s pos) := by
    funext a b
    unfold keyLe
    rw [compareEdges_flowOff_eq s hs]
  have hfe2 : (fun a b => decide (compareEdges s
        (if s.flowSortNodes = some true then buildFlowGroups nodes es2 pos else [])
        (nodeToFlowGroupMap
          (if s.flowSortNodes = some true then buildFlowGroups nodes es2 pos else []))
        pos a b ≠ .gt))
      = keyLe (edgeKey s pos) := by
    funext a b
    unfold keyLe
    rw [compareEdges_flowOff_eq s hs]
  show jsSort _ es1 = jsSort _ es2
  rw [hfe, hfe2, jsSort_eq_mergeSort, jsSort_eq_mergeSort]
  apply eq_of_perm_of_pairwise (keyLe (edgeKey s pos))
  · intro a ha b hb h1 h2
    have hk : edgeKey s pos a = edgeKey s pos b :=
      le_antisymm ((keyLe_iff _ _ _).mp h1) ((keyLe_iff _ _ _).mp h2)
    exact List.inj_on_of_nodup_map hnd
      ((List.mergeSort_perm es1 _).mem_iff.mp ha)
      ((List.mergeSort_perm es1 _).mem_iff.mp hb)
      (edgeKey_id_component s pos a b hk)
  · exact ((List.mergeSort_perm es1 _).trans hp).trans (List.mergeSort_perm es2 _).symm
  · exact List.sorted_mergeSort (keyLe_trans _) (keyLe_total _) es1
  · exact List.sorted_mergeSort (keyLe_trans _) (keyLe_total _) es2


/-! ## Infrastructure: groupless documents and sort idempotence -/

/-- A non-group node is emitted verbatim by `addNodeAndChildren`, with no
recursion. -/
theorem addNodeAndChildren_non_group (pm : SMap (List CanvasNode)) (s : CompileSettings)
    (edges : List CanvasEdge) (pos : SMap NodePosition) (fuel : Nat) (n : CanvasNode)
    (st : List String × List CanvasNode)
    (ht : n.type ≠ "group") (hm : normalizedId n.id ∉ st.1) :
    addNodeAndChildren pm s edges pos (fuel + 1) n st
      = (st.1 ++ [normalizedId n.id], st.2 ++ [n]) := by
  simp only [addNodeAndChildren]
  rw [if_neg hm, if_neg (by rintro ⟨h, -⟩; exact ht h)]

theorem foldl_addNodeAndChildren_non_group (pm : SMap (List CanvasNode))
    (s : CompileSettings) (edges : List CanvasEdge) (pos : SMap NodePosition) (fuel : Nat) :
    ∀ (l : List CanvasNode) (st : List String × List CanvasNode),
      (∀ n ∈ l, n.type ≠ "group") →
      (∀ n ∈ l, normalizedId n.id ∉ st.1) →
      ((l.map fun n => normalizedId n.id).Nodup) →
      l.foldl (fun st n => addNodeAndChildren pm s edges pos (fuel + 1) n st) st
        = (st.1 ++ l.map (fun n => normalizedId n.id), st.2 ++ l) := by
  intro l
  induction l with
  | nil => intro st _ _ _; simp
  | cons n rest ih =>
    intro st hg hm hnd
    rw [List.map_cons, List.nodup_cons] at hnd
    rw [List.foldl_cons, addNodeAndChildren_non_group pm s edges pos fuel n st
      (hg n (List.mem_cons_self n rest)) (hm n (List.mem_cons_self n rest)),
      ih _ (fun m hm2 => hg m (List.mem_cons_of_mem n hm2))
        (fun m hm2 => by
          intro hmem
          rcases List.mem_append.mp hmem with h | h
          · exact hm m (List.mem_cons_of_mem n hm2) h
          · rw [List.mem_singleton] at h
            exact hnd.1 (h ▸ List.mem_map_of_mem _ hm2))
        hnd.2]
    simp

theorem foldl_const {α β : Type} : ∀ (l : List β) (m : α), l.foldl (fun m _ => m) m = m := by
  intro l
  induction l with
  | nil => intro m; rfl
  | cons b rest ih => intro m; rw [List.foldl_cons]; exact ih m

theorem buildHierarchy_no_groups (nodes : List CanvasNode)
    (hg : ∀ n ∈ nodes, n.type ≠ "group") : buildHierarchy nodes = [] := by
  have hgr : nodes.filter (fun n => n.type = "group") = [] :=
    List.filter_eq_nil_iff.mpr (fun n hn => by simpa using hg n hn)
  simp only [buildHierarchy, hgr]
  rw [List.foldl_nil,
    List.foldl_ext
      (fun (m : SMap (List CanvasNode)) node =>
        match innermostParent [] node with
        | some parent => mpush m (normalizedId parent.id) node
        | none => m)
      (fun m _ => m) _ (fun m node _ => rfl),
    foldl_const]

theorem stableSortByXY_perm (nodes : List CanvasNode) (s : CompileSettings)
    (edges : List CanvasEdge) (pos : SMap NodePosition) (w : Bool) :
    List.Perm (stableSortByXY nodes s edges pos w) nodes := by
  simp only [stableSortByXY]
  rw [jsSort_eq_mergeSort]
  exact List.mergeSort_perm nodes _

theorem mem_mget {α : Type} {m : SMap α} {k : String} {v : α}
    (hnd : (m.map Prod.fst).Nodup) (hm : (k, v) ∈ m) : mget m k = some v := by
  induction m with
  | nil => simp at hm
  | cons p rest ih =>
    rw [List.map_cons, List.nodup_cons] at hnd
    rcases List.mem_cons.mp hm with h | h
    · rw [← h]
      rw [mget, List.lookup_cons]
      simp
    · have hk : p.1 ≠ k := by
        intro he
        exact hnd.1 (he ▸ List.mem_map_of_mem Prod.fst h)
      rw [mget, List.lookup_cons]
      simp only [beq_eq_false_iff_ne.mpr (Ne.symm hk)]
      exact ih hnd.2 h

theorem mget_perm {α : Type} {m1 m2 : SMap α} (hp : List.Perm m1 m2)
    (hnd : (m1.map Prod.fst).Nodup) (k : String) : mget m1 k = mget m2 k := by
  have hnd2 : (m2.map Prod.fst).Nodup := ((hp.map Prod.fst).nodup_iff).mp hnd
  cases h1 : mget m1 k with
  | some v => exact (mem_mget hnd2 (hp.subset (mget_mem h1))).symm
  | none =>
    cases h2 : mget m2 k with
    | none => rfl
    | some v =>
      have h3 := mem_mget hnd (hp.symm.subset (mget_mem h2))
      rw [h1] at h3
      exact absurd h3 (by simp)

theorem edgeKey_congr (s : CompileSettings) {p1 p2 : SMap NodePosition}
    (h : ∀ k, mget p1 k = mget p2 k) (e : CanvasEdge) :
    edgeKey s p1 e = edgeKey s p2 e := by
  unfold edgeKey
  rw [h (normalizedId e.fromNode), h (normalizedId e.toNode)]

theorem compareNodesTail_le_false (s : CompileSettings) :
    (fun a b => decide (compareNodesTail s false a b ≠ Ordering.gt))
      = keyLe (nodeKeyBase s) := by
  funext a b
  unfold keyLe
  rw [compareNodesTail_false_eq]

theorem compareNodesTail_le_true (s : CompileSettings) :
    (fun a b => decide (compareNodesTail s true a b ≠ Ordering.gt))
      = keyLe (nodeKeyGroup s) := by
  funext a b
  unfold keyLe
  rw [compareNodesTail_true_eq]

theorem stableSortByXY_idem (s : CompileSettings) (hs : s.flowSortNodes ≠ some true)
    (l : List CanvasNode) (e1 e2 : List CanvasEdge) (p1 p2 : SMap NodePosition) (w : Bool) :
    stableSortByXY (stableSortByXY l s e1 p1 w) s e2 p2 w
      = stableSortByXY l s e1 p1 w := by
  simp only [stableSortByXY_flowOff s hs]
  rw [jsSort_eq_mergeSort, jsSort_eq_mergeSort]
  cases w
  · rw [compareNodesTail_le_false s]
    exact mergeSort_keyLe_idem _ _
  · rw [compareNodesTail_le_true s]
    exact mergeSort_keyLe_idem _ _

theorem stableEdgeSortByTopology_flowOff (s : CompileSettings)
    (hs : s.flowSortNodes ≠ some true) (edges : List CanvasEdge)
    (pos : SMap NodePosition) (nodes : List CanvasNode) :
    stableEdgeSortByTopology edges pos s nodes
      = edges.mergeSort (keyLe (edgeKey s pos)) := by
  have hfe : (fun a b => decide (compareEdges s
        (if s.flowSortNodes = some true then buildFlowGroups nodes edges pos else [])
        (nodeToFlowGroupMap
          (if s.flowSortNodes = some true then buildFlowGroups nodes edges pos else []))
        pos a b ≠ .gt))
      = keyLe (edgeKey s pos) := by
    funext a b
    unfold keyLe
    rw [compareEdges_flowOff_eq s hs]
  show jsSort _ edges = _
  rw [hfe, jsSort_eq_mergeSort]

theorem flattenHierarchical_no_groups (nodes : List CanvasNode) (s : CompileSettings)
    (edges : List CanvasEdge) (pos : SMap NodePosition)
    (hg : ∀ n ∈ nodes, n.type ≠ "group")
    (hnd : (nodes.map fun n => normalizedId n.id).Nodup) :
    flattenHierarchical nodes [] s edges pos
      = stableSortByXY nodes s edges pos (s.semanticSortOrphans = some true) := by
  have hgr : nodes.filter (fun n => n.type = "group") = [] :=
    List.filter_eq_nil_iff.mpr (fun n hn => by simpa using hg n hn)
  have hng : nodes.filter (fun n => n.type ≠ "group") = nodes :=
    List.filter_eq_self.mpr (fun n hn => by simpa using hg n hn)
  simp only [flattenHierarchical, hgr, hng]
  have hroot : nodes.filter
      (fun n => ¬ (([] : SMap (List CanvasNode)).any
        (fun p => p.2.any (fun c => normalizedId c.id = normalizedId n.id)))) = nodes :=
    List.filter_eq_self.mpr (fun n hn => by simp)
  rw [hroot, List.filter_nil]
  have hempty : stableSortByXY [] s edges pos false = [] := rfl
  rw [hempty, List.foldl_nil]
  rw [foldl_addNodeAndChildren_non_group [] s edges pos nodes.length
    (stableSortByXY nodes s edges pos (s.semanticSortOrphans = some true)) ([], [])
    (fun n hn => hg n ((stableSortByXY_perm nodes s edges pos _).subset hn))
    (fun n hn => by simp)
    (((stableSortByXY_perm nodes s edges pos _).map
      (fun n => normalizedId n.id)).nodup_iff.mpr hnd)]
  simp

theorem compileCanvasAll_ok_parts (N : List CanvasNode) (E : List CanvasEdge)
    (s : CompileSettings) (ids : List String)
    (h1 : checkNodes N [] = .ok ids)
    (h2 : checkEdges ids E [] = .ok ()) :
    compileCanvasAll { nodes := some N, edges := some E } s
      = .ok { nodes := some (flattenHierarchical N (buildHierarchy N) s E (nodePositionsOf N)),
              edges := some (stableEdgeSortByTopology E (nodePositionsOf N) s N) } := by
  rw [compileCanvasAll_def]
  have h1b : checkNodes (({ nodes := some N, edges := some E } : CanvasData).nodes.getD []) []
      = .ok ids := h1
  rw [h1b]
  simp only [Except.bind]
  have h2b : checkEdges ids (({ nodes := some N, edges := some E } : CanvasData).edges.getD []) []
      = .ok () := h2
  rw [h2b]
  rfl

/-! ## Infrastructure: the parent map and hierarchical flattening -/

/-- `mget` after `mpush`: the pushed key's list gains the value at the end,
other keys are untouched. -/
theorem mget_mpush {α : Type} (m : SMap (List α)) (k : String) (v : α) (k2 : String) :
    mget (mpush m k v) k2
      = if k2 = k then some ((mget m k).getD [] ++ [v]) else mget m k2 := by
  unfold mpush
  by_cases hs : (mget m k).isSome
  · rw [if_pos hs]
    induction m with
    | nil => simp [mget] at hs
    | cons p rest ih =>
      rw [mupd]
      by_cases hk : p.1 = k
      · rw [if_pos hk]
        by_cases hk2 : k2 = k
        · subst hk2
          subst hk
          rw [mget, List.lookup_cons, mget, List.lookup_cons]
          simp
        · rw [mget, List.lookup_cons, if_neg hk2]
          subst hk
          rw [mget, List.lookup_cons]
          have : (k2 == p.1) = false := beq_eq_false_iff_ne.mpr hk2
          rw [this]
      · rw [if_neg hk]
        have hklookup : mget (p :: rest) k = mget rest k := by
          rw [mget, List.lookup_cons]
          have : (k == p.1) = false := beq_eq_false_iff_ne.mpr (fun h => hk h.symm)
          rw [this]
          rfl
        rw [hklookup] at hs ⊢
        by_cases hk2 : k2 = k
        · rw [if_pos hk2]
          subst hk2
          rw [mget, List.lookup_cons]
          have : (k2 == p.1) = false := beq_eq_false_iff_ne.mpr (fun h => hk h.symm)
          rw [this]
          have := ih hs
          rw [if_pos rfl] at this
          exact this
        · rw [if_neg hk2]
          rw [mget, List.lookup_cons, mget, List.lookup_cons]
          by_cases hp : k2 = p.1
          · rw [beq_iff_eq.mpr hp]
          · have hb : (k2 == p.1) = false := beq_eq_false_iff_ne.mpr hp
            rw [hb]
            have h2 := ih hs
            rw [if_neg hk2] at h2
            have h3 : List.lookup k2 (mupd rest k fun l => l ++ [v])
                = List.lookup k2 rest := h2
            exact h3
  · rw [if_neg hs]
    rw [Option.not_isSome_iff_eq_none] at hs
    by_cases hk2 : k2 = k
    · subst hk2
      rw [if_pos rfl, hs]
      induction m with
      | nil => rw [mget, List.nil_append, List.lookup_cons]; simp
      | cons p rest ih =>
        have hpk : (k2 == p.1) = false := by
          rw [beq_eq_false_iff_ne]
          intro h
          rw [mget, List.lookup_cons, beq_iff_eq.mpr h] at hs
          simp at hs
        have hs2 : mget rest k2 = none := by
          rw [mget, List.lookup_cons, hpk] at hs
          exact hs
        rw [List.cons_append, mget, List.lookup_cons, hpk]
        exact ih hs2
    · rw [if_neg hk2]
      induction m with
      | nil =>
        rw [mget, List.nil_append, List.lookup_cons, beq_eq_false_iff_ne.mpr hk2]
        rfl
      | cons p rest ih =>
        have hs2 : mget rest k = none := by
          rw [mget, List.lookup_cons] at hs
          rcases h : (k == p.1) with _ | _
          · rw [h] at hs
            exact hs
          · rw [h] at hs
            simp at hs
        rw [List.cons_append, mget, List.lookup_cons, mget, List.lookup_cons]
        rcases h : (k2 == p.1) with _ | _
        · exact ih hs2
        · rfl

theorem mem_mget_mpush_self {α : Type} (m : SMap (List α)) (k : String) (v : α) :
    v ∈ (mget (mpush m k v) k).getD [] := by
  rw [mget_mpush]
  simp

theorem mem_mget_mpush_mono {α : Type} (m : SMap (List α)) (k : String) (v : α)
    (k2 : String) {x : α} (h : x ∈ (mget m k2).getD []) :
    x ∈ (mget (mpush m k v) k2).getD [] := by
  rw [mget_mpush]
  by_cases hk : k2 = k
  · subst hk
    rw [if_pos rfl]
    simp only [Option.getD_some]
    exact List.mem_append_left _ h
  · rw [if_neg hk]
    exact h

theorem foldl_parent_push_mono (f : CanvasNode → Option CanvasNode)
    (l : List CanvasNode) :
    ∀ (m : SMap (List CanvasNode)) (k : String) (x : CanvasNode),
      x ∈ (mget m k).getD [] →
      x ∈ (mget (l.foldl (fun m node =>
        match f node with
        | some parent => mpush m (normalizedId parent.id) node
        | none => m) m) k).getD [] := by
  induction l with
  | nil => intro m k x h; exact h
  | cons y rest ih =>
    intro m k x h
    rw [List.foldl_cons]
    apply ih
    cases hf : f y with
    | none => simpa [hf] using h
    | some p =>
      simp only [hf]
      exact mem_mget_mpush_mono m (normalizedId p.id) y k h

theorem foldl_parent_push_mem (f : CanvasNode → Option CanvasNode)
    (l : List CanvasNode) :
    ∀ (m : SMap (List CanvasNode)) (x : CanvasNode), x ∈ l →
      ∀ (p : CanvasNode), f x = some p →
      x ∈ (mget (l.foldl (fun m node =>
        match f node with
        | some parent => mpush m (normalizedId parent.id) node
        | none => m) m) (normalizedId p.id)).getD [] := by
  induction l with
  | nil => intro m x hx; simp at hx
  | cons y rest ih =>
    intro m x hx p hp
    rw [List.foldl_cons]
    rcases List.mem_cons.mp hx with h | h
    · subst h
      apply foldl_parent_push_mono
      simp only [hp]
      exact mem_mget_mpush_self m (normalizedId p.id) x
    · exact ih _ x h p hp

theorem foldl_parent_push_forall (f : CanvasNode → Option CanvasNode)
    (Q : CanvasNode → Prop) (l : List CanvasNode)
    (hQ : ∀ x ∈ l, (∃ p, f x = some p) → Q x) :
    ∀ (m : SMap (List CanvasNode)),
      (∀ pr ∈ m, ∀ c ∈ pr.2, Q c) →
      ∀ pr ∈ l.foldl (fun m node =>
        match f node with
        | some parent => mpush m (normalizedId parent.id) node
        | none => m) m, ∀ c ∈ pr.2, Q c := by
  induction l with
  | nil => intro m hm; simpa using hm
  | cons y rest ih =>
    intro m hm
    rw [List.foldl_cons]
    apply ih (fun x hx hex => hQ x (List.mem_cons_of_mem y hx) hex)
    cases hf : f y with
    | none => simpa [hf] using hm
    | some p =>
      simp only [hf]
      exact mpush_forall hm (hQ y (List.mem_cons_self y rest) ⟨p, hf⟩)

theorem innermostParent_mem (groups : List CanvasNode) (n : CanvasNode) (p : CanvasNode)
    (h : innermostParent groups n = some p) : p ∈ groups := by
  unfold innermostParent at h
  have key : ∀ (acc : Option (CanvasNode × Int)),
      (∀ q a, acc = some (q, a) → q ∈ groups) →
      ∀ q a, groups.foldl (fun acc group =>
        if isContainedBy n group then
          let area := numOr0 group.width * numOr0 group.height
          match acc with
          | none => some (group, area)
          | some (p, minArea) =>
            if area < minArea then some (group, area) else some (p, minArea)
        else acc) acc = some (q, a) → q ∈ groups := by
    have gen : ∀ (l : List CanvasNode), (∀ g ∈ l, g ∈ groups) →
        ∀ (acc : Option (CanvasNode × Int)),
        (∀ q a, acc = some (q, a) → q ∈ groups) →
        ∀ q a, l.foldl (fun acc group =>
          if isContainedBy n group then
            let area := numOr0 group.width * numOr0 group.height
            match acc with
            | none => some (group, area)
            | some (p, minArea) =>
              if area < minArea then some (group, area) else some (p, minArea)
          else acc) acc = some (q, a) → q ∈ groups := by
      intro l
      induction l with
      | nil => intro _ acc hacc q a h2; exact hacc q a h2
      | cons g rest ih =>
        intro hl acc hacc q a h2
        rw [List.foldl_cons] at h2
        refine ih (fun x hx => hl x (List.mem_cons_of_mem g hx)) _ ?_ q a h2
        intro q2 a2 hacc2
        by_cases hc : isContainedBy n g
        · rw [if_pos hc] at hacc2
          rcases hacc0 : acc with _ | ⟨q3, a3⟩
          · rw [hacc0] at hacc2
            have hacc3 : some (g, numOr0 g.width * numOr0 g.height) = some (q2, a2) := hacc2
            simp only [Option.some.injEq, Prod.mk.injEq] at hacc3
            rw [← hacc3.1]
            exact hl g (List.mem_cons_self g rest)
          · rw [hacc0] at hacc2
            have hacc3 : (if numOr0 g.width * numOr0 g.height < a3 then
                  some (g, numOr0 g.width * numOr0 g.height)
                else some (q3, a3)) = some (q2, a2) := hacc2
            by_cases harea : numOr0 g.width * numOr0 g.height < a3
            · rw [if_pos harea] at hacc3
              simp only [Option.some.injEq, Prod.mk.injEq] at hacc3
              rw [← hacc3.1]
              exact hl g (List.mem_cons_self g rest)
            · rw [if_neg harea] at hacc3
              simp only [Option.some.injEq, Prod.mk.injEq] at hacc3
              exact hacc3.1 ▸ hacc q3 a3 hacc0
        · rw [if_neg hc] at hacc2
          exact hacc q2 a2 hacc2
    exact gen groups (fun g hg => hg)
  rcases hfold : groups.foldl _ none with _ | pa
  · rw [hfold] at h
    simp at h
  · rw [hfold] at h
    rcases pa with ⟨q, a⟩
    have h2 : some q = some p := h
    rw [Option.some.injEq] at h2
    subst h2
    exact key none (by intro q2 a2 h3; cases h3) q a hfold

theorem innermostGroupParent_mem (groups : List CanvasNode) (n : CanvasNode)
    (p : CanvasNode) (h : innermostGroupParent groups n = some p) : p ∈ groups := by
  unfold innermostGroupParent at h
  have gen : ∀ (l : List CanvasNode), (∀ g ∈ l, g ∈ groups) →
      ∀ (acc : Option (CanvasNode × Int)),
      (∀ q a, acc = some (q, a) → q ∈ groups) →
      ∀ q a, l.foldl (fun acc parentGroup =>
        if n.id = parentGroup.id then acc
        else if isContainedBy n parentGroup then
          let area := numOr0 parentGroup.width * numOr0 parentGroup.height
          match acc with
          | none => some (parentGroup, area)
          | some (p, minArea) =>
            if area < minArea then some (parentGroup, area) else some (p, minArea)
        else acc) acc = some (q, a) → q ∈ groups := by
    intro l
    induction l with
    | nil => intro _ acc hacc q a h2; exact hacc q a h2
    | cons g rest ih =>
      intro hl acc hacc q a h2
      rw [List.foldl_cons] at h2
      refine ih (fun x hx => hl x (List.mem_cons_of_mem g hx)) _ ?_ q a h2
      intro q2 a2 hacc2
      by_cases hid : n.id = g.id
      · rw [if_pos hid] at hacc2
        exact hacc q2 a2 hacc2
      · rw [if_neg hid] at hacc2
        by_cases hc : isContainedBy n g
        · rw [if_pos hc] at hacc2
          rcases hacc0 : acc with _ | ⟨q3, a3⟩
          · rw [hacc0] at hacc2
            have hacc3 : some (g, numOr0 g.width * numOr0 g.height) = some (q2, a2) := hacc2
            simp only [Option.some.injEq, Prod.mk.injEq] at hacc3
            rw [← hacc3.1]
            exact hl g (List.mem_cons_self g rest)
          · rw [hacc0] at hacc2
            have hacc3 : (if numOr0 g.width * numOr0 g.height < a3 then
                  some (g, numOr0 g.width * numOr0 g.height)
                else some (q3, a3)) = some (q2, a2) := hacc2
            by_cases harea : numOr0 g.width * numOr0 g.height < a3
            · rw [if_pos harea] at hacc3
              simp only [Option.some.injEq, Prod.mk.injEq] at hacc3
              rw [← hacc3.1]
              exact hl g (List.mem_cons_self g rest)
            · rw [if_neg harea] at hacc3
              simp only [Option.some.injEq, Prod.mk.injEq] at hacc3
              exact hacc3.1 ▸ hacc q3 a3 hacc0
        · rw [if_neg hc] at hacc2
          exact hacc q2 a2 hacc2
  rcases hfold : List.foldl _ none groups with _ | pa
  · rw [hfold] at h
    simp at h
  · rw [hfold] at h
    rcases pa with ⟨q, a⟩
    have h2 : some q = some p := h
    rw [Option.some.injEq] at h2
    subst h2
    exact gen groups (fun g hg => hg) none (by intro q2 a2 h3; cases h3) q a hfold

theorem buildHierarchy_child_mem_nonGroup (nodes : List CanvasNode) (n : CanvasNode)
    (hn : n ∈ nodes.filter (fun x => x.type ≠ "group")) (p : CanvasNode)
    (hp : innermostParent (nodes.filter (fun x => x.type = "group")) n = some p) :
    n ∈ (mget (buildHierarchy nodes) (normalizedId p.id)).getD [] := by
  unfold buildHierarchy
  apply foldl_parent_push_mono
  exact foldl_parent_push_mem _ _ [] n hn p hp

theorem buildHierarchy_child_mem_group (nodes : List CanvasNode) (g : CanvasNode)
    (hg : g ∈ nodes.filter (fun x => x.type = "group")) (p : CanvasNode)
    (hp : innermostGroupParent (nodes.filter (fun x => x.type = "group")) g = some p) :
    g ∈ (mget (buildHierarchy nodes) (normalizedId p.id)).getD [] := by
  unfold buildHierarchy
  exact foldl_parent_push_mem _ _ _ g hg p hp

theorem buildHierarchy_values (nodes : List CanvasNode) :
    ∀ pr ∈ buildHierarchy nodes, ∀ c ∈ pr.2,
      c ∈ nodes ∧
      ((c.type = "group"
          ∧ innermostGroupParent (nodes.filter (fun x => x.type = "group")) c ≠ none)
        ∨ (c.type ≠ "group"
          ∧ innermostParent (nodes.filter (fun x => x.type = "group")) c ≠ none)) := by
  unfold buildHierarchy
  apply foldl_parent_push_forall
  · intro x hx hex
    refine ⟨List.mem_of_mem_filter hx, Or.inl ⟨?_, ?_⟩⟩
    · have := List.of_mem_filter hx
      simpa using this
    · obtain ⟨p, hp⟩ := hex
      rw [hp]
      simp
  · apply foldl_parent_push_forall
    · intro x hx hex
      refine ⟨List.mem_of_mem_filter hx, Or.inr ⟨?_, ?_⟩⟩
      · have := List.of_mem_filter hx
        simpa using this
      · obtain ⟨p, hp⟩ := hex
        rw [hp]
        simp
    · intro pr hpr
      simp at hpr

/-- Invariant of the `(processed, result)` state of `addNodeAndChildren`:
processed ids are exactly the emitted nodes' normalized ids in order, they
are duplicate-free, and every emitted node comes from the input array. -/
def emittedInv (nodes : List CanvasNode) (st : List String × List CanvasNode) : Prop :=
  st.1 = st.2.map (fun n => normalizedId n.id) ∧ st.1.Nodup ∧ ∀ x ∈ st.2, x ∈ nodes

/-- Closure of a processed-id set under the parent-map children relation,
except at ids in `E` (groups whose children are still being traversed). -/
def pmClosedExcept (nodes : List CanvasNode) (pm : SMap (List CanvasNode))
    (P E : List String) : Prop :=
  ∀ g ∈ nodes, g.type = "group" → normalizedId g.id ∈ P → normalizedId g.id ∉ E →
    ∀ c ∈ (mget pm (normalizedId g.id)).getD [], normalizedId c.id ∈ P

/-- Number of input-node ids not yet processed. -/
def unproc (nodes : List CanvasNode) (P : List String) : Nat :=
  ((nodes.map fun n => normalizedId n.id).filter (fun id => ¬ id ∈ P)).length

theorem filter_sublist_of_imp {α : Type} {p q : α → Bool} (h : ∀ a, p a = true → q a = true) :
    ∀ l : List α, List.Sublist (l.filter p) (l.filter q) := by
  intro l
  induction l with
  | nil => simp
  | cons a rest ih =>
    rw [List.filter_cons, List.filter_cons]
    by_cases hp : p a = true
    · rw [if_pos hp, if_pos (h a hp)]
      exact List.Sublist.cons₂ a ih
    · rw [if_neg hp]
      by_cases hq : q a = true
      · rw [if_pos hq]
        exact List.Sublist.cons a ih
      · rw [if_neg hq]
        exact ih

theorem unproc_mono (nodes : List CanvasNode) {P P2 : List String}
    (h : ∀ id ∈ P, id ∈ P2) : unproc nodes P2 ≤ unproc nodes P := by
  unfold unproc
  apply List.Sublist.length_le
  apply filter_sublist_of_imp
  intro a ha
  simp only [decide_eq_true_eq] at ha ⊢
  intro hmem
  exact ha (h a hmem)

theorem unproc_strict (nodes : List CanvasNode) {P : List String} {id : String}
    (hid : id ∈ nodes.map fun n => normalizedId n.id) (hnot : id ∉ P) :
    unproc nodes (P ++ [id]) < unproc nodes P := by
  unfold unproc
  have hsub : List.Sublist
      ((nodes.map fun n => normalizedId n.id).filter (fun i => ¬ i ∈ P ++ [id]))
      ((nodes.map fun n => normalizedId n.id).filter (fun i => ¬ i ∈ P)) := by
    apply filter_sublist_of_imp
    intro a ha
    simp only [decide_eq_true_eq, List.mem_append, List.mem_singleton] at ha ⊢
    intro hmem
    exact ha (Or.inl hmem)
  have hle := hsub.length_le
  rcases Nat.lt_or_ge (((nodes.map fun n => normalizedId n.id).filter
      (fun i => ¬ i ∈ P ++ [id])).length)
      (((nodes.map fun n => normalizedId n.id).filter (fun i => ¬ i ∈ P)).length) with h | h
  · exact h
  · exfalso
    have heq := hsub.eq_of_length (le_antisymm hle h)
    have hmem1 : id ∈ (nodes.map fun n => normalizedId n.id).filter (fun i => ¬ i ∈ P) :=
      List.mem_filter.mpr ⟨hid, by simpa using hnot⟩
    rw [← heq] at hmem1
    have := (List.mem_filter.mp hmem1).2
    simp at this

theorem addNAC_invariant (nodes : List CanvasNode) (pm : SMap (List CanvasNode))
    (s : CompileSettings) (edges : List CanvasEdge) (pos : SMap NodePosition)
    (hpm : ∀ pr ∈ pm, ∀ c ∈ pr.2, c ∈ nodes)
    (hnd : (nodes.map fun n => normalizedId n.id).Nodup) :
    ∀ (fuel : Nat) (n : CanvasNode) (st : List String × List CanvasNode) (E : List String),
      n ∈ nodes →
      emittedInv nodes st →
      pmClosedExcept nodes pm st.1 E →
      unproc nodes st.1 + 1 ≤ fuel →
      emittedInv nodes (addNodeAndChildren pm s edges pos fuel n st)
      ∧ pmClosedExcept nodes pm (addNodeAndChildren pm s edges pos fuel n st).1 E
      ∧ (∀ id ∈ st.1, id ∈ (addNodeAndChildren pm s edges pos fuel n st).1)
      ∧ normalizedId n.id ∈ (addNodeAndChildren pm s edges pos fuel n st).1 := by
  intro fuel
  induction fuel with
  | zero =>
    intro n st E hn hinv hcl hfu
    exact absurd hfu (by omega)
  | succ f ih =>
    intro n st E hn hinv hcl hfu
    by_cases hmem : normalizedId n.id ∈ st.1
    · have hr : addNodeAndChildren pm s edges pos (f + 1) n st = st := by
        simp only [addNodeAndChildren]
        rw [if_pos hmem]
      rw [hr]
      exact ⟨hinv, hcl, fun id h => h, hmem⟩
    · obtain ⟨hlock, hndP, hsub⟩ := hinv
      have hinv1 : emittedInv nodes (st.1 ++ [normalizedId n.id], st.2 ++ [n]) := by
        refine ⟨?_, ?_, ?_⟩
        · rw [List.map_append, ← hlock]
          rfl
        · rw [List.nodup_append]
          exact ⟨hndP, List.nodup_singleton _,
            fun a ha hb => hmem ((List.mem_singleton.mp hb) ▸ ha)⟩
        · intro x hx
          rcases List.mem_append.mp hx with h | h
          · exact hsub x h
          · rw [List.mem_singleton] at h
            exact h ▸ hn
      have hfu1 : unproc nodes (st.1 ++ [normalizedId n.id]) + 1 ≤ f := by
        have := unproc_strict nodes
          (List.mem_map_of_mem (fun n => normalizedId n.id) hn) hmem
        omega
      have hfold : ∀ (cs : List CanvasNode) (st0 : List String × List CanvasNode)
          (E2 : List String),
          (∀ c ∈ cs, c ∈ nodes) → emittedInv nodes st0 →
          pmClosedExcept nodes pm st0.1 E2 →
          unproc nodes st0.1 + 1 ≤ f →
          emittedInv nodes (cs.foldl
            (fun st c => addNodeAndChildren pm s edges pos f c st) st0)
          ∧ pmClosedExcept nodes pm (cs.foldl
            (fun st c => addNodeAndChildren pm s edges pos f c st) st0).1 E2
          ∧ (∀ id ∈ st0.1, id ∈ (cs.foldl
            (fun st c => addNodeAndChildren pm s edges pos f c st) st0).1)
          ∧ (∀ c ∈ cs, normalizedId c.id ∈ (cs.foldl
            (fun st c => addNodeAndChildren pm s edges pos f c st) st0).1) := by
        intro cs
        induction cs with
        | nil =>
          intro st0 E2 _ hi hc hf
          exact ⟨hi, hc, fun id h => h, by simp⟩
        | cons c rest ihc =>
          intro st0 E2 hcs hi hc hf
          rw [List.foldl_cons]
          obtain ⟨i1, c1, m1, e1⟩ := ih c st0 E2 (hcs c (List.mem_cons_self c rest)) hi hc hf
          have hf2 : unproc nodes (addNodeAndChildren pm s edges pos f c st0).1 + 1 ≤ f := by
            have := unproc_mono nodes m1
            omega
          obtain ⟨i2, c2, m2, e2⟩ := ihc _ E2
            (fun x hx => hcs x (List.mem_cons_of_mem c hx)) i1 c1 hf2
          refine ⟨i2, c2, fun id h => m2 id (m1 id h), ?_⟩
          intro x hx
          rcases List.mem_cons.mp hx with h | h
          · exact h ▸ m2 _ e1
          · exact e2 x h
      by_cases hgr : n.type = "group" ∧ (mget pm (normalizedId n.id)).isSome
      · have hr : addNodeAndChildren pm s edges pos (f + 1) n st
            = ((stableSortByXY
                  ((stableSortByXY ((mget pm (normalizedId n.id)).getD []) s edges pos
                    true).filter (fun c => c.type = "group"))
                  { s with colorSortNodes := some false } edges pos false).foldl
                (fun st c => addNodeAndChildren pm s edges pos f c st)
                (((stableSortByXY ((mget pm (normalizedId n.id)).getD []) s edges pos
                    true).filter (fun c => c.type ≠ "group")).foldl
                  (fun st c => addNodeAndChildren pm s edges pos f c st)
                  (st.1 ++ [normalizedId n.id], st.2 ++ [n]))) := by
          simp only [addNodeAndChildren]
          rw [if_neg hmem, if_pos hgr]
        rw [hr]
        obtain ⟨hl0, hl0s⟩ := Option.isSome_iff_exists.mp hgr.2
        have hchildren_nodes : ∀ c ∈ (mget pm (normalizedId n.id)).getD [], c ∈ nodes := by
          intro c hc
          rw [hl0s] at hc
          exact hpm (normalizedId n.id, hl0) (mget_mem hl0s) c (by simpa using hc)
        have hsorted_nodes : ∀ c ∈ stableSortByXY ((mget pm (normalizedId n.id)).getD [])
            s edges pos true, c ∈ nodes :=
          fun c hc => hchildren_nodes c ((stableSortByXY_perm _ s edges pos true).subset hc)
        have hcng_nodes : ∀ c ∈ (stableSortByXY ((mget pm (normalizedId n.id)).getD [])
            s edges pos true).filter (fun c => c.type ≠ "group"), c ∈ nodes :=
          fun c hc => hsorted_nodes c (List.mem_of_mem_filter hc)
        have hcg_nodes : ∀ c ∈ stableSortByXY
            ((stableSortByXY ((mget pm (normalizedId n.id)).getD []) s edges pos
              true).filter (fun c => c.type = "group"))
            { s with colorSortNodes := some false } edges pos false, c ∈ nodes :=
          fun c hc => hsorted_nodes c
            (List.mem_of_mem_filter ((stableSortByXY_perm _ _ edges pos false).subset hc))
        have hclE : pmClosedExcept nodes pm (st.1 ++ [normalizedId n.id])
            (E ++ [normalizedId n.id]) := by
          intro g hg hgt hgP hgE c hc
          have hgold : normalizedId g.id ∈ st.1 := by
            rcases List.mem_append.mp hgP with h | h
            · exact h
            · exact absurd (List.mem_append_right E h) hgE
          exact List.mem_append_left _ (hcl g hg hgt hgold
            (fun hE => hgE (List.mem_append_left _ hE)) c hc)
        obtain ⟨if1, cf1, mf1, ef1⟩ := hfold _ _ (E ++ [normalizedId n.id])
          hcng_nodes hinv1 hclE hfu1
        have hfu2 : unproc nodes (((stableSortByXY ((mget pm (normalizedId n.id)).getD [])
            s edges pos true).filter (fun c => c.type ≠ "group")).foldl
              (fun st c => addNodeAndChildren pm s edges pos f c st)
              (st.1 ++ [normalizedId n.id], st.2 ++ [n])).1 + 1 ≤ f := by
          have h1 := unproc_mono nodes mf1
          have hd : unproc nodes
              ((st.1 ++ [normalizedId n.id], st.2 ++ [n])
                : List String × List CanvasNode).1
              = unproc nodes (st.1 ++ [normalizedId n.id]) := rfl
          omega
        obtain ⟨if2, cf2, mf2, ef2⟩ := hfold _ _ (E ++ [normalizedId n.id])
          hcg_nodes if1 cf1 hfu2
        refine ⟨if2, ?_, ?_, ?_⟩
        · intro g hg hgt hgP hgE c hc
          by_cases hgn : normalizedId g.id = normalizedId n.id
          · have hgeq : g = n := List.inj_on_of_nodup_map hnd hg hn hgn
            have hcmem : c ∈ stableSortByXY ((mget pm (normalizedId n.id)).getD [])
                s edges pos true :=
              (stableSortByXY_perm _ s edges pos true).symm.subset (by
                rw [hgeq] at hc
                exact hc)
            by_cases hct : c.type = "group"
            · have hcf : c ∈ (stableSortByXY ((mget pm (normalizedId n.id)).getD [])
                  s edges pos true).filter (fun c => c.type = "group") :=
                List.mem_filter.mpr ⟨hcmem, by simpa using hct⟩
              exact ef2 c ((stableSortByXY_perm _ _ edges pos false).symm.subset hcf)
            · have hcf : c ∈ (stableSortByXY ((mget pm (normalizedId n.id)).getD [])
                  s edges pos true).filter (fun c => c.type ≠ "group") :=
                List.mem_filter.mpr ⟨hcmem, by simpa using hct⟩
              exact mf2 _ (ef1 c hcf)
          · exact cf2 g hg hgt hgP
              (fun hE => by
                rcases List.mem_append.mp hE with h | h
                · exact hgE h
                · exact hgn (List.mem_singleton.mp h)) c hc
        · intro id h
          exact mf2 id (mf1 id (List.mem_append_left _ h))
        · exact mf2 _ (mf1 _ (List.mem_append_right _ (List.mem_singleton.mpr rfl)))
      · have hr : addNodeAndChildren pm s edges pos (f + 1) n st
            = (st.1 ++ [normalizedId n.id], st.2 ++ [n]) := by
          simp only [addNodeAndChildren]
          rw [if_neg hmem, if_neg hgr]
        rw [hr]
        refine ⟨hinv1, ?_, ?_, ?_⟩
        · intro g hg hgt hgP hgE c hc
          by_cases hgn : normalizedId g.id = normalizedId n.id
          · exfalso
            have hgeq : g = n := List.inj_on_of_nodup_map hnd hg hn hgn
            rcases Decidable.not_and_iff_or_not.mp hgr with h | h
            · exact h (hgeq ▸ hgt)
            · rw [Option.not_isSome_iff_eq_none] at h
              rw [hgn, h] at hc
              simp at hc
          · have hgold : normalizedId g.id ∈ st.1 := by
              rcases List.mem_append.mp hgP with h | h
              · exact h
              · exact absurd (List.mem_singleton.mp h) hgn
            exact List.mem_append_left _ (hcl g hg hgt hgold hgE c hc)
        · intro id h
          exact List.mem_append_left _ h
        · exact List.mem_append_right _ (List.mem_singleton.mpr rfl)

theorem flatten_fold_perm (nodes : List CanvasNode) (s : CompileSettings)
    (edges : List CanvasEdge) (pos : SMap NodePosition)
    (rootsN rootsG : List CanvasNode)
    (hnd : (nodes.map fun n => normalizedId n.id).Nodup)
    (h_rn_nodes : ∀ c ∈ rootsN, c ∈ nodes)
    (h_rg_nodes : ∀ c ∈ rootsG, c ∈ nodes)
    (h_rootN : ∀ n ∈ nodes, n.type ≠ "group" →
      innermostParent (nodes.filter fun x => x.type = "group") n = none → n ∈ rootsN)
    (h_rootG : ∀ g ∈ nodes, g.type = "group" →
      innermostGroupParent (nodes.filter fun x => x.type = "group") g = none → g ∈ rootsG)
    (rk : CanvasNode → Nat)
    (hrk : ∀ g ∈ nodes, g.type = "group" → ∀ p,
      innermostGroupParent (nodes.filter fun x => x.type = "group") g = some p →
      rk p < rk g) :
    List.Perm
      (rootsG.foldl (fun st c =>
          addNodeAndChildren (buildHierarchy nodes) s edges pos (nodes.length + 1) c st)
        (rootsN.foldl (fun st c =>
          addNodeAndChildren (buildHierarchy nodes) s edges pos (nodes.length + 1) c st)
          ([], []))).2
      nodes := by
  have hpm : ∀ pr ∈ buildHierarchy nodes, ∀ c ∈ pr.2, c ∈ nodes :=
    fun pr hpr c hc => (buildHierarchy_values nodes pr hpr c hc).1
  have hprov := fun pr hpr c hc => (buildHierarchy_values nodes pr hpr c hc).2
  have hTop : ∀ (cs : List CanvasNode) (st0 : List String × List CanvasNode),
      (∀ c ∈ cs, c ∈ nodes) → emittedInv nodes st0 →
      pmClosedExcept nodes (buildHierarchy nodes) st0.1 [] →
      unproc nodes st0.1 + 1 ≤ nodes.length + 1 →
      emittedInv nodes (cs.foldl (fun st c =>
        addNodeAndChildren (buildHierarchy nodes) s edges pos (nodes.length + 1) c st) st0)
      ∧ pmClosedExcept nodes (buildHierarchy nodes) (cs.foldl (fun st c =>
        addNodeAndChildren (buildHierarchy nodes) s edges pos (nodes.length + 1) c st)
          st0).1 []
      ∧ (∀ id ∈ st0.1, id ∈ (cs.foldl (fun st c =>
        addNodeAndChildren (buildHierarchy nodes) s edges pos (nodes.length + 1) c st)
          st0).1)
      ∧ (∀ c ∈ cs, normalizedId c.id ∈ (cs.foldl (fun st c =>
        addNodeAndChildren (buildHierarchy nodes) s edges pos (nodes.length + 1) c st)
          st0).1) := by
    intro cs
    induction cs with
    | nil =>
      intro st0 _ hi hc hf
      exact ⟨hi, hc, fun id h => h, by simp⟩
    | cons c rest ihc =>
      intro st0 hcs hi hc hf
      rw [List.foldl_cons]
      obtain ⟨i1, c1, m1, e1⟩ := addNAC_invariant nodes (buildHierarchy nodes) s edges pos
        hpm hnd (nodes.length + 1) c st0 [] (hcs c (List.mem_cons_self c rest)) hi hc hf
      have hf2 : unproc nodes (addNodeAndChildren (buildHierarchy nodes) s edges pos
          (nodes.length + 1) c st0).1 + 1 ≤ nodes.length + 1 := by
        have := unproc_mono nodes m1
        omega
      obtain ⟨i2, c2, m2, e2⟩ := ihc _
        (fun x hx => hcs x (List.mem_cons_of_mem c hx)) i1 c1 hf2
      refine ⟨i2, c2, fun id h => m2 id (m1 id h), ?_⟩
      intro x hx
      rcases List.mem_cons.mp hx with h | h
      · exact h ▸ m2 _ e1
      · exact e2 x h
  have hAnyFalseG : ∀ g ∈ nodes, g.type = "group" →
      innermostGroupParent (nodes.filter fun x => x.type = "group") g = none →
      ((buildHierarchy nodes).any
        (fun pr => pr.2.any (fun c => normalizedId c.id = normalizedId g.id))) = false := by
    intro g hg hgt hpar
    rw [Bool.eq_false_iff]
    intro hany
    rw [List.any_eq_true] at hany
    obtain ⟨pr, hpr, h2⟩ := hany
    rw [List.any_eq_true] at h2
    obtain ⟨c, hc, h3⟩ := h2
    rw [decide_eq_true_eq] at h3
    have hcn : c ∈ nodes := hpm pr hpr c hc
    have hceq : c = g := List.inj_on_of_nodup_map hnd hcn hg h3
    rcases hprov pr hpr c hc with ⟨-, hne⟩ | ⟨hct, -⟩
    · rw [hceq, hpar] at hne
      exact hne rfl
    · rw [hceq] at hct
      exact hct hgt
  have hinit : emittedInv nodes (([], []) : List String × List CanvasNode) :=
    ⟨rfl, List.nodup_nil, by simp⟩
  have hcl0 : pmClosedExcept nodes (buildHierarchy nodes)
      (([], []) : List String × List CanvasNode).1 [] := by
    intro g hg hgt hgP hgE c hc
    exact absurd hgP (List.not_mem_nil _)
  have hfu0 : unproc nodes (([], []) : List String × List CanvasNode).1 + 1
      ≤ nodes.length + 1 := by
    have h1 : unproc nodes [] ≤ nodes.length := by
      unfold unproc
      have h2 := List.length_filter_le (fun id => decide (¬ id ∈ ([] : List String)))
        (nodes.map fun n => normalizedId n.id)
      rw [List.length_map] at h2
      exact h2
    have h0 : unproc nodes (([], []) : List String × List CanvasNode).1
        = unproc nodes [] := rfl
    omega
  obtain ⟨invA, clA, mA, eA⟩ := hTop rootsN ([], []) h_rn_nodes hinit hcl0 hfu0
  have hfuA : unproc nodes (rootsN.foldl (fun st c =>
      addNodeAndChildren (buildHierarchy nodes) s edges pos (nodes.length + 1) c st)
      ([], [])).1 + 1 ≤ nodes.length + 1 := by
    have h1 := unproc_mono nodes mA
    have h0 : unproc nodes (([], []) : List String × List CanvasNode).1
        = unproc nodes [] := rfl
    omega
  obtain ⟨invB, clB, mB, eB⟩ := hTop rootsG _ h_rg_nodes invA clA hfuA
  have hGroupDone : ∀ (k : Nat) (g : CanvasNode), g ∈ nodes → g.type = "group" →
      rk g = k → normalizedId g.id ∈ (rootsG.foldl (fun st c =>
        addNodeAndChildren (buildHierarchy nodes) s edges pos (nodes.length + 1) c st)
        (rootsN.foldl (fun st c =>
          addNodeAndChildren (buildHierarchy nodes) s edges pos (nodes.length + 1) c st)
          ([], []))).1 := by
    intro k
    induction k using Nat.strong_induction_on with
    | _ k ihk =>
      intro g hg hgt hrkg
      rcases hpar : innermostGroupParent (nodes.filter fun x => x.type = "group") g
          with _ | p
      · exact eB g (h_rootG g hg hgt hpar)
      · have hpgrp : p ∈ nodes.filter (fun x => x.type = "group") :=
          innermostGroupParent_mem _ g p hpar
        have hpn : p ∈ nodes := List.mem_of_mem_filter hpgrp
        have hpt : p.type = "group" := by
          have := List.of_mem_filter hpgrp
          simpa using this
        have hplt : rk p < k := hrkg ▸ hrk g hg hgt p hpar
        have hpin := ihk (rk p) hplt p hpn hpt rfl
        have hchild : g ∈ (mget (buildHierarchy nodes) (normalizedId p.id)).getD [] :=
          buildHierarchy_child_mem_group nodes g
            (List.mem_filter.mpr ⟨hg, by simpa using hgt⟩) p hpar
        exact clB p hpn hpt hpin (List.not_mem_nil _) g hchild
  have hNodeDone : ∀ n ∈ nodes, normalizedId n.id ∈ (rootsG.foldl (fun st c =>
      addNodeAndChildren (buildHierarchy nodes) s edges pos (nodes.length + 1) c st)
      (rootsN.foldl (fun st c =>
        addNodeAndChildren (buildHierarchy nodes) s edges pos (nodes.length + 1) c st)
        ([], []))).1 := by
    intro n hn
    by_cases hnt : n.type = "group"
    · exact hGroupDone (rk n) n hn hnt rfl
    · rcases hpar : innermostParent (nodes.filter fun x => x.type = "group") n with _ | p
      · exact mB _ (eA n (h_rootN n hn hnt hpar))
      · have hpgrp : p ∈ nodes.filter (fun x => x.type = "group") :=
          innermostParent_mem _ n p hpar
        have hpn : p ∈ nodes := List.mem_of_mem_filter hpgrp
        have hpt : p.type = "group" := by
          have := List.of_mem_filter hpgrp
          simpa using this
        have hpin := hGroupDone (rk p) p hpn hpt rfl
        have hchild : n ∈ (mget (buildHierarchy nodes) (normalizedId p.id)).getD [] :=
          buildHierarchy_child_mem_nonGroup nodes n
            (List.mem_filter.mpr ⟨hn, by simpa using hnt⟩) p hpar
        exact clB p hpn hpt hpin (List.not_mem_nil _) n hchild
  obtain ⟨lockB, ndB, subB⟩ := invB
  have hndF : (rootsG.foldl (fun st c =>
      addNodeAndChildren (buildHierarchy nodes) s edges pos (nodes.length + 1) c st)
      (rootsN.foldl (fun st c =>
        addNodeAndChildren (buildHierarchy nodes) s edges pos (nodes.length + 1) c st)
        ([], []))).2.Nodup := by
    rw [lockB] at ndB
    exact List.Nodup.of_map _ ndB
  rw [List.perm_ext_iff_of_nodup hndF (List.Nodup.of_map _ hnd)]
  intro x
  constructor
  · exact subB x
  · intro hx
    have hid := hNodeDone x hx
    rw [lockB] at hid
    obtain ⟨y, hy, hyx⟩ := List.mem_map.mp hid
    have hyeq : y = x := List.inj_on_of_nodup_map hnd (subB y hy) hx hyx
    exact hyeq ▸ hy

theorem buildHierarchy_any_false_group (nodes : List CanvasNode)
    (hnd : (nodes.map fun n => normalizedId n.id).Nodup)
    (g : CanvasNode) (hg : g ∈ nodes) (hgt : g.type = "group")
    (hpar : innermostGroupParent (nodes.filter fun x => x.type = "group") g = none) :
    ((buildHierarchy nodes).any
      (fun pr => pr.2.any (fun c => normalizedId c.id = normalizedId g.id))) = false := by
  rw [Bool.eq_false_iff]
  intro hany
  rw [List.any_eq_true] at hany
  obtain ⟨pr, hpr, h2⟩ := hany
  rw [List.any_eq_true] at h2
  obtain ⟨c, hc, h3⟩ := h2
  rw [decide_eq_true_eq] at h3
  have hcn : c ∈ nodes := (buildHierarchy_values nodes pr hpr c hc).1
  have hceq : c = g := List.inj_on_of_nodup_map hnd hcn hg h3
  rcases (buildHierarchy_values nodes pr hpr c hc).2 with ⟨-, hne⟩ | ⟨hct, -⟩
  · rw [hceq, hpar] at hne
    exact hne rfl
  · rw [hceq] at hct
    exact hct hgt

theorem buildHierarchy_any_false_nonGroup (nodes : List CanvasNode)
    (hnd : (nodes.map fun n => normalizedId n.id).Nodup)
    (n : CanvasNode) (hn : n ∈ nodes) (hnt : n.type ≠ "group")
    (hpar : innermostParent (nodes.filter fun x => x.type = "group") n = none) :
    ((buildHierarchy nodes).any
      (fun pr => pr.2.any (fun c => normalizedId c.id = normalizedId n.id))) = false := by
  rw [Bool.eq_false_iff]
  intro hany
  rw [List.any_eq_true] at hany
  obtain ⟨pr, hpr, h2⟩ := hany
  rw [List.any_eq_true] at h2
  obtain ⟨c, hc, h3⟩ := h2
  rw [decide_eq_true_eq] at h3
  have hcn : c ∈ nodes := (buildHierarchy_values nodes pr hpr c hc).1
  have hceq : c = n := List.inj_on_of_nodup_map hnd hcn hn h3
  rcases (buildHierarchy_values nodes pr hpr c hc).2 with ⟨hct, -⟩ | ⟨-, hne⟩
  · rw [hceq] at hct
    exact hnt hct
  · rw [hceq, hpar] at hne
    exact hne rfl

theorem flattenHierarchical_unfold (nodes : List CanvasNode) (pm : SMap (List CanvasNode))
    (s : CompileSettings) (edges : List CanvasEdge) (pos : SMap NodePosition) :
    flattenHierarchical nodes pm s edges pos
      = ((stableSortByXY ((nodes.filter (fun n => n.type = "group")).filter
            (fun g => ¬ pm.any
              (fun p => p.2.any (fun c => normalizedId c.id = normalizedId g.id))))
          s edges pos).foldl
          (fun st g => addNodeAndChildren pm s edges pos (nodes.length + 1) g st)
          ((stableSortByXY ((nodes.filter (fun n => n.type ≠ "group")).filter
              (fun n => ¬ pm.any
                (fun p => p.2.any (fun c => normalizedId c.id = normalizedId n.id))))
            s edges pos (s.semanticSortOrphans = some true)).foldl
            (fun st n => addNodeAndChildren pm s edges pos (nodes.length + 1) n st)
            ([], []))).2 := rfl

theorem flattenHierarchical_perm (nodes : List CanvasNode) (s : CompileSettings)
    (edges : List CanvasEdge) (pos : SMap NodePosition)
    (hnd : (nodes.map fun n => normalizedId n.id).Nodup)
    (rk : CanvasNode → Nat)
    (hrk : ∀ g ∈ nodes, g.type = "group" → ∀ p,
      innermostGroupParent (nodes.filter fun x => x.type = "group") g = some p →
      rk p < rk g) :
    List.Perm (flattenHierarchical nodes (buildHierarchy nodes) s edges pos) nodes := by
  rw [flattenHierarchical_unfold]
  refine flatten_fold_perm nodes s edges pos _ _ hnd ?_ ?_ ?_ ?_ rk hrk
  · intro c hc
    exact List.mem_of_mem_filter
      (List.mem_of_mem_filter ((stableSortByXY_perm _ s edges pos _).subset hc))
  · intro c hc
    exact List.mem_of_mem_filter
      (List.mem_of_mem_filter ((stableSortByXY_perm _ s edges pos _).subset hc))
  · intro n hn hnt hpar
    apply (stableSortByXY_perm _ s edges pos _).mem_iff.mpr
    apply List.mem_filter.mpr
    refine ⟨List.mem_filter.mpr ⟨hn, by simpa using hnt⟩, ?_⟩
    rw [buildHierarchy_any_false_nonGroup nodes hnd n hn hnt hpar]
    simp
  · intro g hg hgt hpar
    apply (stableSortByXY_perm _ s edges pos _).mem_iff.mpr
    apply List.mem_filter.mpr
    refine ⟨List.mem_filter.mpr ⟨hg, by simpa using hgt⟩, ?_⟩
    rw [buildHierarchy_any_false_group nodes hnd g hg hgt hpar]
    simp

/-- The edge sort always permutes the edge array (with any settings). -/
theorem stableEdgeSortByTopology_perm (edges : List CanvasEdge) (pos : SMap NodePosition)
    (s : CompileSettings) (nodes : List CanvasNode) :
    List.Perm (stableEdgeSortByTopology edges pos s nodes) edges := by
  simp only [stableEdgeSortByTopology]
  rw [jsSort_eq_mergeSort]
  exact List.mergeSort_perm edges _

/-! ## Claim C9 -/

/-- C9: an input whose `nodes` or `edges` field is missing (or not an array)
does not make `compile` throw: the field is treated as the empty list, so
compiling the empty object yields `{nodes: [], edges: []}`; `stripMetadata`
defaults the same way, and it performs no integrity validation of its own
(it is a total function and returns a full document even on input that
`compile` rejects, e.g. the duplicate-id document). -/
theorem c9_missing_fields_defaulted :
    (∀ s : CompileSettings,
      compileCanvasAll { nodes := none, edges := none } s
        = .ok { nodes := some [], edges := some [] }) ∧
    (∀ (d : CanvasData) (s : CompileSettings),
      compileCanvasAll d s
        = compileCanvasAll { nodes := some (d.nodes.getD []), edges := some (d.edges.getD []) } s) ∧
    (∀ (d : CanvasData) (s : CompileSettings),
      stripCanvasMetadata d s
        = stripCanvasMetadata { nodes := some (d.nodes.getD []), edges := some (d.edges.getD []) } s) ∧
    (∀ s : CompileSettings,
      stripCanvasMetadata { nodes := none, edges := none } s
        = { nodes := some [], edges := some [] }) ∧
    (isOkE (compileCanvasAll dupDoc {}) = false ∧
      ((stripCanvasMetadata dupDoc {}).nodes.getD []).length = 2) := by
  refine ⟨fun s => rfl, fun d s => rfl, fun d s => rfl, fun s => ?_, by decide, by decide⟩
  simp [stripCanvasMetadata, processLabeledEdges]

/-! ## Claim C7 -/

theorem foldl_skip_eq_filter {α β : Type} (p : α → Bool) (g : β → α → β) :
    ∀ (l : List α) (init : β),
      l.foldl (fun st e => if ¬ p e then st else g st e) init
        = (l.filter p).foldl (fun st e => if ¬ p e then st else g st e) init := by
  intro l
  induction l with
  | nil => intro init; rfl
  | cons a t ih =>
    intro init
    by_cases hp : p a
    · rw [List.filter_cons_of_pos hp, List.foldl_cons, List.foldl_cons,
        if_neg (by simp [hp])]
      exact ih _
    · rw [List.filter_cons_of_neg hp, List.foldl_cons, if_pos (by simp [hp])]
      exact ih init

/-- C7: an edge is classified directional exactly when it has an `arrow`
endpoint, or `toEnd` is absent while `fromEnd` is not `arrow`; and only
edges so classified contribute to flow-group membership (removing the
non-directional edges does not change `buildFlowGroups` at all). -/
theorem c7_directional_edges :
    (∀ e : CanvasEdge,
      isDirectionalEdge e = true ↔
        ((e.fromEnd = some "arrow" ∨ e.toEnd = some "arrow") ∨
          (e.toEnd = none ∧ e.fromEnd ≠ some "arrow"))) ∧
    (∀ (nodes : List CanvasNode) (edges : List CanvasEdge) (pos : SMap NodePosition),
      buildFlowGroups nodes edges pos
        = buildFlowGroups nodes (edges.filter isDirectionalEdge) pos) := by
  constructor
  · intro e
    unfold isDirectionalEdge
    by_cases h1 : e.fromEnd = some "arrow" ∨ e.toEnd = some "arrow"
    · simp [h1]
    · rw [if_neg h1]
      by_cases h2 : e.toEnd = none ∧ e.fromEnd ≠ some "arrow" <;> simp [h1, h2]
  · intro nodes edges pos
    unfold buildFlowGroups
    simp only [List.filter_filter]
    rw [foldl_skip_eq_filter, foldl_skip_eq_filter, List.filter_filter, List.filter_filter]
    rw [List.filter_congr (fun e _ => ?_)]
    cases hd : isDirectionalEdge e <;> simp [hd]

/-! ## Claim C6 -/

/-- C6: after `stripMetadata` (in particular on any compiled document) no
node carries `x`, `y`, `width` or `height`, and a node's color survives
exactly when it is a custom color — non-empty after trimming and not made
of digits only — kept verbatim; palette index `"3"` is dropped while
`"#ff00aa"` and `"rgb(255,0,170)"` are kept. -/
theorem c6_export_metadata_removal (d : CanvasData) (s s2 : CompileSettings)
    (out : CanvasData) (h : compileCanvasAll d s = .ok out) :
    (∀ m ∈ (stripCanvasMetadata out s2).nodes.getD [],
      m.x = none ∧ m.y = none ∧ m.width = none ∧ m.height = none) ∧
    (((stripCanvasMetadata out s2).nodes.getD []).length = (out.nodes.getD []).length ∧
      ∀ i : Nat,
        (((stripCanvasMetadata out s2).nodes.getD [])[i]?).map (fun m => m.color)
          = ((out.nodes.getD [])[i]?).map
              (fun n => if isCustomColor n.color then n.color else none) ∧
        (((stripCanvasMetadata out s2).nodes.getD [])[i]?).map (fun m => m.id)
          = ((out.nodes.getD [])[i]?).map (fun n => n.id)) ∧
    (∀ c : String, isCustomColor (some c) = true ↔
      jsTrim c ≠ "" ∧ ¬ (jsTrim c).data.all Char.isDigit) ∧
    (isCustomColor (some "3") = false ∧ isCustomColor (some "#ff00aa") = true ∧
      isCustomColor (some "rgb(255,0,170)") = true) := by
  have hnodes : (stripCanvasMetadata out s2).nodes.getD []
      = (out.nodes.getD []).map (fun node =>
        { id := node.id
          type := node.type
          x := none, y := none, width := none, height := none
          text := node.text
          file := node.file
          url := node.url
          label := node.label
          color := if isCustomColor node.color then node.color else none
          fromRel := mget (processLabeledEdges
            ((out.edges.getD []).filter (fun e => e.label.isSome)) "from") (normalizedId node.id)
          toRel := mget (processLabeledEdges
            ((out.edges.getD []).filter (fun e => e.label.isSome)) "to") (normalizedId node.id)
          : CanvasNode }) := rfl
  refine ⟨?_, ⟨?_, ?_⟩, ?_, by decide, by decide, by decide⟩
  · intro m hm
    rw [hnodes, List.mem_map] at hm
    obtain ⟨n, hn, hmn⟩ := hm
    rw [← hmn]
    exact ⟨rfl, rfl, rfl, rfl⟩
  · rw [hnodes, List.length_map]
  · intro i
    rw [hnodes, List.getElem?_map]
    constructor
    · cases (out.nodes.getD [])[i]? <;> rfl
    · cases (out.nodes.getD [])[i]? <;> rfl
  · intro c
    unfold isCustomColor
    by_cases he : jsTrim c = "" <;> simp [he]

/-- C6 witness: the claim theorem applied at a concrete two-node document
(palette color `"3"` vs custom `"#ff00aa"`), with the compile hypothesis
discharged by evaluation. -/
theorem c6_export_metadata_removal_witness :
    (∀ m ∈ (stripCanvasMetadata c6Out {}).nodes.getD [],
      m.x = none ∧ m.y = none ∧ m.width = none ∧ m.height = none) ∧
    (((stripCanvasMetadata c6Out {}).nodes.getD []).length = (c6Out.nodes.getD []).length ∧
      ∀ i : Nat,
        (((stripCanvasMetadata c6Out {}).nodes.getD [])[i]?).map (fun m => m.color)
          = ((c6Out.nodes.getD [])[i]?).map
              (fun n => if isCustomColor n.color then n.color else none) ∧
        (((stripCanvasMetadata c6Out {}).nodes.getD [])[i]?).map (fun m => m.id)
          = ((c6Out.nodes.getD [])[i]?).map (fun n => n.id)) ∧
    (∀ c : String, isCustomColor (some c) = true ↔
      jsTrim c ≠ "" ∧ ¬ (jsTrim c).data.all Char.isDigit) ∧
    (isCustomColor (some "3") = false ∧ isCustomColor (some "#ff00aa") = true ∧
      isCustomColor (some "rgb(255,0,170)") = true) :=
  c6_export_metadata_removal c6Doc {} {} c6Out (by decide)
/-! ## Claim C5 -/

theorem mget_nil {α : Type} (k : String) : mget ([] : SMap α) k = none := rfl

theorem mget_cons {α : Type} (k' : String) (v : α) (m : SMap α) (k : String) :
    mget ((k', v) :: m) k = if k = k' then some v else mget m k := by
  unfold mget
  rw [List.lookup_cons]
  by_cases h : k = k'
  · simp [h]
  · have hb : (k == k') = false := by simp [h]
    simp [h, hb]

theorem mget_mupd_self {α : Type} (m : SMap α) (k : String) (f : α → α) :
    mget (mupd m k f) k = (mget m k).map f := by
  induction m with
  | nil => rfl
  | cons p rest ih =>
    obtain ⟨k', v'⟩ := p
    unfold mupd
    by_cases h : k' = k
    · rw [if_pos h, mget_cons, mget_cons, if_pos h.symm, if_pos h.symm]
      rfl
    · rw [if_neg h, mget_cons, mget_cons, if_neg (fun hh => h hh.symm),
        if_neg (fun hh => h hh.symm), ih]

theorem mget_mupd_ne {α : Type} (m : SMap α) (k k' : String) (f : α → α) (h : k' ≠ k) :
    mget (mupd m k f) k' = mget m k' := by
  induction m with
  | nil => rfl
  | cons p rest ih =>
    obtain ⟨k'', v''⟩ := p
    unfold mupd
    by_cases hk : k'' = k
    · rw [if_pos hk, mget_cons, mget_cons, hk, if_neg h, if_neg h]
    · rw [if_neg hk, mget_cons, mget_cons, ih]

theorem mget_append_single {α : Type} (m : SMap α) (k : String) (v : α)
    (h : mget m k = none) : mget (m ++ [(k, v)]) k = some v := by
  induction m with
  | nil => simp [mget_cons]
  | cons p rest ih =>
    obtain ⟨k', v'⟩ := p
    rw [List.cons_append, mget_cons]
    rw [mget_cons] at h
    by_cases hk : k = k'
    · rw [if_pos hk] at h
      cases h
    · rw [if_neg hk] at h ⊢
      exact ih h

theorem mget_append_single_ne {α : Type} (m : SMap α) (k k' : String) (v : α)
    (h : k' ≠ k) : mget (m ++ [(k, v)]) k' = mget m k' := by
  induction m with
  | nil => simp [mget_cons, mget_nil, h]
  | cons p rest ih =>
    obtain ⟨k'', v''⟩ := p
    rw [List.cons_append, mget_cons, mget_cons, ih]

theorem mget_mpush_self {α : Type} (m : SMap (List α)) (k : String) (v : α) :
    mget (mpush m k v) k = some ((mget m k).getD [] ++ [v]) := by
  unfold mpush
  cases h : mget m k with
  | some l =>
    rw [if_pos (show (some l).isSome = true from rfl), mget_mupd_self, h]
    rfl
  | none =>
    rw [if_neg (by simp), mget_append_single m k [v] h]
    rfl

theorem mget_mpush_ne {α : Type} (m : SMap (List α)) (k k' : String) (v : α)
    (h : k' ≠ k) : mget (mpush m k v) k' = mget m k' := by
  unfold mpush
  by_cases hs : (mget m k).isSome
  · rw [if_pos hs, mget_mupd_ne m k k' _ h]
  · rw [if_neg hs, mget_append_single_ne m k k' [v] h]

theorem mem_mget_mpush {α : Type} (m : SMap (List α)) (k k' : String) (v x : α)
    (h : x ∈ (mget m k).getD []) : x ∈ (mget (mpush m k' v) k).getD [] := by
  by_cases hk : k = k'
  · subst hk
    rw [mget_mpush_self]
    simp only [Option.getD_some]
    exact List.mem_append_left _ h
  · rw [mget_mpush_ne m k' k v hk]
    exact h

theorem mem_mget_mpushFold {α : Type} (key : CanvasEdge → String) (ent : CanvasEdge → α) :
    ∀ (l : List CanvasEdge) (m : SMap (List α)) (x : α) (k : String),
      x ∈ (mget m k).getD [] →
      x ∈ (mget (l.foldl (fun m e => mpush m (key e) (ent e)) m) k).getD [] := by
  intro l
  induction l with
  | nil => intro m x k h; exact h
  | cons e t ih =>
    intro m x k h
    rw [List.foldl_cons]
    exact ih _ x k (mem_mget_mpush m k (key e) (ent e) x h)

theorem mem_mget_mpushFold_self {α : Type} (key : CanvasEdge → String) (ent : CanvasEdge → α) :
    ∀ (l : List CanvasEdge) (e : CanvasEdge), e ∈ l → ∀ m : SMap (List α),
      ent e ∈ (mget (l.foldl (fun m e => mpush m (key e) (ent e)) m) (key e)).getD [] := by
  intro l
  induction l with
  | nil => intro e he; cases he
  | cons a t ih =>
    intro e he m
    rw [List.foldl_cons]
    rcases List.mem_cons.mp he with he | he
    · subst he
      apply mem_mget_mpushFold
      rw [mget_mpush_self]
      simp
    · exact ih e he _

theorem processLabeledEdges_to_eq (l : List CanvasEdge) :
    processLabeledEdges l "to"
      = l.foldl (fun m e => mpush m (normalizedId e.fromNode)
          ({ node := normalizedId e.toNode, label := e.label,
             color := if isCustomColor e.color then e.color else none } : RelationEntry)) [] :=
  rfl

theorem processLabeledEdges_from_eq (l : List CanvasEdge) :
    processLabeledEdges l "from"
      = l.foldl (fun m e => mpush m (normalizedId e.toNode)
          ({ node := normalizedId e.fromNode, label := e.label,
             color := if isCustomColor e.color then e.color else none } : RelationEntry)) [] :=
  rfl

/-- C5: a labeled edge from `n1` to `n2` is embedded as a `to` relation
entry `{node, label, color?}` on the output node(s) for `n1` and the mirror
`from` entry on the node(s) for `n2`; labeled edges never remain as
top-level edge records; when neither `flowSort` nor
`stripEdgesWhenFlowSorted` is set, the output edge array is exactly the
unlabeled input edges, in order, each kept as its stripped
`{id, fromNode, toNode, color?}` record (so every unlabeled edge is
retained); and when either setting is on the output edge array is
empty. -/
theorem c5_label_embedding (d : CanvasData) (s : CompileSettings) (e : CanvasEdge)
    (lbl : String) (he : e ∈ d.edges.getD []) (hl : e.label = some lbl) :
    (∀ (i : Nat) (n : CanvasNode), (d.nodes.getD [])[i]? = some n →
      normalizedId n.id = normalizedId e.fromNode →
      ∃ m, ((stripCanvasMetadata d s).nodes.getD [])[i]? = some m ∧
        ({ node := normalizedId e.toNode, label := some lbl,
           color := if isCustomColor e.color then e.color else none } : RelationEntry)
          ∈ (m.toRel.getD [])) ∧
    (∀ (i : Nat) (n : CanvasNode), (d.nodes.getD [])[i]? = some n →
      normalizedId n.id = normalizedId e.toNode →
      ∃ m, ((stripCanvasMetadata d s).nodes.getD [])[i]? = some m ∧
        ({ node := normalizedId e.fromNode, label := some lbl,
           color := if isCustomColor e.color then e.color else none } : RelationEntry)
          ∈ (m.fromRel.getD [])) ∧
    (∀ oe ∈ (stripCanvasMetadata d s).edges.getD [],
      ∃ ie ∈ d.edges.getD [], ie.label = none ∧
        oe = { id := ie.id, fromNode := ie.fromNode, toNode := ie.toNode,
               fromEnd := none, toEnd := none, label := none,
               color := if isCustomColor ie.color then ie.color else none }) ∧
    ((s.flowSort = some true ∨ s.stripEdgesWhenFlowSorted = some true) →
      (stripCanvasMetadata d s).edges = some []) ∧
    (s.flowSort ≠ some true → s.stripEdgesWhenFlowSorted ≠ some true →
      (stripCanvasMetadata d s).edges
        = some (((d.edges.getD []).filter (fun ie => ¬ ie.label.isSome)).map (fun ie =>
            ({ id := ie.id, fromNode := ie.fromNode, toNode := ie.toNode,
               fromEnd := none, toEnd := none, label := none,
               color := if isCustomColor ie.color then ie.color else none } : CanvasEdge)))) := by
  have hmem : e ∈ (d.edges.getD []).filter (fun e => e.label.isSome) :=
    List.mem_filter.mpr ⟨he, by rw [hl]; rfl⟩
  have hnodes : (stripCanvasMetadata d s).nodes.getD []
      = (d.nodes.getD []).map (fun node =>
        { id := node.id
          type := node.type
          x := none, y := none, width := none, height := none
          text := node.text
          file := node.file
          url := node.url
          label := node.label
          color := if isCustomColor node.color then node.color else none
          fromRel := mget (processLabeledEdges
            ((d.edges.getD []).filter (fun e => e.label.isSome)) "from") (normalizedId node.id)
          toRel := mget (processLabeledEdges
            ((d.edges.getD []).filter (fun e => e.label.isSome)) "to") (normalizedId node.id)
          : CanvasNode }) := rfl
  refine ⟨?_, ?_, ?_, ?_, ?_⟩
  · intro i n hi hid
    rw [hnodes, List.getElem?_map, hi]
    refine ⟨_, rfl, ?_⟩
    simp only [hid, processLabeledEdges_to_eq]
    have := mem_mget_mpushFold_self
      (fun e => normalizedId e.fromNode)
      (fun e => ({ node := normalizedId e.toNode, label := e.label,
                   color := if isCustomColor e.color then e.color else none } : RelationEntry))
      _ e hmem []
    rw [hl] at this
    exact this
  · intro i n hi hid
    rw [hnodes, List.getElem?_map, hi]
    refine ⟨_, rfl, ?_⟩
    simp only [hid, processLabeledEdges_from_eq]
    have := mem_mget_mpushFold_self
      (fun e => normalizedId e.toNode)
      (fun e => ({ node := normalizedId e.fromNode, label := e.label,
                   color := if isCustomColor e.color then e.color else none } : RelationEntry))
      _ e hmem []
    rw [hl] at this
    exact this
  · intro oe hoe
    have hedges : (stripCanvasMetadata d s).edges.getD []
        = (if s.flowSort = some true ∨ s.stripEdgesWhenFlowSorted = some true then []
          else ((d.edges.getD []).filter (fun e => ¬ e.label.isSome)).map (fun edge =>
            ({ id := edge.id, fromNode := edge.fromNode, toNode := edge.toNode,
               fromEnd := none, toEnd := none, label := none,
               color := if isCustomColor edge.color then edge.color else none } : CanvasEdge))) := by
      unfold stripCanvasMetadata
      by_cases hf : s.flowSort = some true ∨ s.stripEdgesWhenFlowSorted = some true
      · rcases hf with hf | hf <;> simp [hf]
      · push_neg at hf
        simp [hf.1, hf.2]
    rw [hedges] at hoe
    by_cases hf : s.flowSort = some true ∨ s.stripEdgesWhenFlowSorted = some true
    · rw [if_pos hf] at hoe
      cases hoe
    · rw [if_neg hf] at hoe
      rw [List.mem_map] at hoe
      obtain ⟨ie, hie, hoe⟩ := hoe
      rw [List.mem_filter] at hie
      refine ⟨ie, hie.1, ?_, hoe.symm⟩
      have := hie.2
      simp at this
      exact this
  · intro hf
    show (stripCanvasMetadata d s).edges = some []
    unfold stripCanvasMetadata
    rcases hf with hf | hf <;> simp [hf]
  · intro hf1 hf2
    show (stripCanvasMetadata d s).edges = _
    unfold stripCanvasMetadata
    simp [hf1, hf2]

/-- C5 witness: the claim theorem applied at the spec's example (`e1` from
`n1` to `n2`, label `"go"`, custom color), hypotheses discharged by
evaluation. -/
theorem c5_label_embedding_witness :
    (∀ (i : Nat) (n : CanvasNode), (c5Doc.nodes.getD [])[i]? = some n →
      normalizedId n.id = normalizedId c5Edge.fromNode →
      ∃ m, ((stripCanvasMetadata c5Doc {}).nodes.getD [])[i]? = some m ∧
        ({ node := normalizedId c5Edge.toNode, label := some "go",
           color := if isCustomColor c5Edge.color then c5Edge.color else none } : RelationEntry)
          ∈ (m.toRel.getD [])) ∧
    (∀ (i : Nat) (n : CanvasNode), (c5Doc.nodes.getD [])[i]? = some n →
      normalizedId n.id = normalizedId c5Edge.toNode →
      ∃ m, ((stripCanvasMetadata c5Doc {}).nodes.getD [])[i]? = some m ∧
        ({ node := normalizedId c5Edge.fromNode, label := some "go",
           color := if isCustomColor c5Edge.color then c5Edge.color else none } : RelationEntry)
          ∈ (m.fromRel.getD [])) ∧
    (∀ oe ∈ (stripCanvasMetadata c5Doc {}).edges.getD [],
      ∃ ie ∈ c5Doc.edges.getD [], ie.label = none ∧
        oe = { id := ie.id, fromNode := ie.fromNode, toNode := ie.toNode,
               fromEnd := none, toEnd := none, label := none,
               color := if isCustomColor ie.color then ie.color else none }) ∧
    (({} : CompileSettings).flowSort = some true ∨
        ({} : CompileSettings).stripEdgesWhenFlowSorted = some true →
      (stripCanvasMetadata c5Doc {}).edges = some []) ∧
    (({} : CompileSettings).flowSort ≠ some true →
      ({} : CompileSettings).stripEdgesWhenFlowSorted ≠ some true →
      (stripCanvasMetadata c5Doc {}).edges
        = some (((c5Doc.edges.getD []).filter (fun ie => ¬ ie.label.isSome)).map (fun ie =>
            ({ id := ie.id, fromNode := ie.fromNode, toNode := ie.toNode,
               fromEnd := none, toEnd := none, label := none,
               color := if isCustomColor ie.color then ie.color else none } : CanvasEdge)))) :=
  c5_label_embedding c5Doc {} c5Edge "go" (by decide) rfl

/-! ## C8: flow-order monotonicity in a linear chain -/

/-- **C8.** For any three nodes `A`, `B`, `C` with distinct non-empty
normalized ids, connected as a linear chain `A → B → C` by two edges whose
`toEnd` is `"arrow"` and whose `fromEnd` is not `"arrow"` (i.e. directional
edges), `buildFlowGroups` produces exactly one flow group whose `flowOrder`
map assigns depth `0` to `A`, `1` to `B` and `2` to `C`; consequently the
assigned depths are strictly increasing along the chain:
`flowOrder(A) < flowOrder(B) < flowOrder(C)`. -/
theorem c8_flow_order_monotonicity
    (A B C : CanvasNode) (e1 e2 : CanvasEdge) (pos : SMap NodePosition)
    (ha0 : normalizedId A.id ≠ "") (hb0 : normalizedId B.id ≠ "") (hc0 : normalizedId C.id ≠ "")
    (hab : normalizedId A.id ≠ normalizedId B.id)
    (hac : normalizedId A.id ≠ normalizedId C.id)
    (hbc : normalizedId B.id ≠ normalizedId C.id)
    (h1f : normalizedId e1.fromNode = normalizedId A.id)
    (h1t : normalizedId e1.toNode = normalizedId B.id)
    (h2f : normalizedId e2.fromNode = normalizedId B.id)
    (h2t : normalizedId e2.toNode = normalizedId C.id)
    (h1fe : e1.fromEnd ≠ some "arrow") (h1te : e1.toEnd = some "arrow")
    (h2fe : e2.fromEnd ≠ some "arrow") (h2te : e2.toEnd = some "arrow") :
    (buildFlowGroups [A, B, C] [e1, e2] pos).map (fun g => g.flowOrder)
      = [[(normalizedId A.id, 0), (normalizedId B.id, 1), (normalizedId C.id, 2)]]
    ∧ ∀ g ∈ buildFlowGroups [A, B, C] [e1, e2] pos, ∀ da db dc : Int,
        mget g.flowOrder (normalizedId A.id) = some da →
        mget g.flowOrder (normalizedId B.id) = some db →
        mget g.flowOrder (normalizedId C.id) = some dc →
        da < db ∧ db < dc := by
  have hba := hab.symm
  have hca := hac.symm
  have hcb := hbc.symm
  have eab : (normalizedId A.id == normalizedId B.id) = false := beq_eq_false_iff_ne.mpr hab
  have eba : (normalizedId B.id == normalizedId A.id) = false := beq_eq_false_iff_ne.mpr hba
  have eac : (normalizedId A.id == normalizedId C.id) = false := beq_eq_false_iff_ne.mpr hac
  have eca : (normalizedId C.id == normalizedId A.id) = false := beq_eq_false_iff_ne.mpr hca
  have ebc : (normalizedId B.id == normalizedId C.id) = false := beq_eq_false_iff_ne.mpr hbc
  have ecb : (normalizedId C.id == normalizedId B.id) = false := beq_eq_false_iff_ne.mpr hcb
  have hmain : (buildFlowGroups [A, B, C] [e1, e2] pos).map (fun g => g.flowOrder)
      = [[(normalizedId A.id, 0), (normalizedId B.id, 1), (normalizedId C.id, 2)]] := by
    unfold buildFlowGroups
    simp [List.filter_cons, h1f, h1t, h2f, h2t, h1fe, h2fe,
      mset, mupd, mget, sadd, List.lookup_cons,
      isDirectionalEdge, h1te, h2te, hab, hac, hbc, hba, hca, hcb, ha0, hb0, hc0,
      eab, eba, eac, eca, ebc, ecb, Option.getD_some, Option.getD_none,
      bfsComponent, kahnLoop]
  refine ⟨hmain, ?_⟩
  intro g hg da db dc hda hdb hdc
  have hmem : g.flowOrder
      ∈ (buildFlowGroups [A, B, C] [e1, e2] pos).map (fun g => g.flowOrder) :=
    List.mem_map_of_mem _ hg
  rw [hmain] at hmem
  simp only [List.mem_singleton] at hmem
  rw [hmem] at hda hdb hdc
  simp only [mget, List.lookup_cons, beq_self_eq_true, eba, eca, ecb,
    if_true, if_false, cond_true, cond_false, Option.some.injEq] at hda hdb hdc
  omega

/-- Witness for C8: the chain `A → B → C` on concrete nodes at `y = 0, 120,
240` yields the single flow group with depths `0 < 1 < 2`. -/
theorem c8_flow_order_monotonicity_witness :
    (buildFlowGroups
        [plainNode "A" "text" 0 0 100 40, plainNode "B" "text" 0 120 100 40,
          plainNode "C" "text" 0 240 100 40]
        [arrowEdge "ab" "A" "B", arrowEdge "bc" "B" "C"] []).map (fun g => g.flowOrder)
      = [[("A", 0), ("B", 1), ("C", 2)]] := by
  have h := c8_flow_order_monotonicity
    (plainNode "A" "text" 0 0 100 40) (plainNode "B" "text" 0 120 100 40)
    (plainNode "C" "text" 0 240 100 40)
    (arrowEdge "ab" "A" "B") (arrowEdge "bc" "B" "C") []
    (by decide) (by decide) (by decide) (by decide) (by decide) (by decide)
    rfl rfl rfl rfl (by decide) rfl (by decide) rfl
  exact h.1

/-! ## C4: validation iff document integrity, error messages name the offender -/

/-- **C4.** `compileCanvasAll` succeeds iff the document satisfies integrity:
every node id trims to a non-empty string with no duplicates, every edge id
trims to a non-empty string with no duplicates, and every edge's
`fromNode`/`toNode` trim to non-empty references among the validated node
ids.  On failure the error message contains an offending id (the normalized
id of some input node or edge occurs as an infix of the message), and no
document is returned (`Except.error` carries no value); in particular the
spec's duplicate-`"dup"` example fails with a message containing `"dup"`. -/
theorem c4_validation_and_error_messages :
    (∀ (d : CanvasData) (s : CompileSettings),
      isOkE (compileCanvasAll d s) = true ↔
        ((∀ n ∈ d.nodes.getD [], normalizedId n.id ≠ "") ∧
         ((d.nodes.getD []).map fun n => normalizedId n.id).Nodup ∧
         (∀ e ∈ d.edges.getD [], normalizedId e.id ≠ "") ∧
         ((d.edges.getD []).map fun e => normalizedId e.id).Nodup ∧
         (∀ e ∈ d.edges.getD [], normalizedId e.fromNode ≠ "" ∧ normalizedId e.toNode ≠ "") ∧
         (∀ e ∈ d.edges.getD [],
            normalizedId e.fromNode ∈ ((d.nodes.getD []).map fun n => normalizedId n.id) ∧
            normalizedId e.toNode ∈ ((d.nodes.getD []).map fun n => normalizedId n.id))))
    ∧ (∀ (d : CanvasData) (s : CompileSettings) (msg : String),
        compileCanvasAll d s = .error msg →
          (∃ n ∈ d.nodes.getD [], (normalizedId n.id).data <:+: msg.data) ∨
          (∃ e ∈ d.edges.getD [], (normalizedId e.id).data <:+: msg.data))
    ∧ (∃ msg, compileCanvasAll dupDoc {} = .error msg ∧ "dup".data <:+: msg.data) := by
  refine ⟨?_, ?_, ?_⟩
  · intro d s
    exact compileCanvasAll_isOk_iff d s
  · intro d s msg h
    rcases hn : checkNodes (d.nodes.getD []) [] with m | ids
    · rw [compileCanvasAll_def, hn] at h
      simp only [Except.bind, Except.error.injEq] at h
      obtain ⟨n, hmem, hinf⟩ := checkNodes_error_infix (d.nodes.getD []) [] m hn
      exact Or.inl ⟨n, hmem, h ▸ hinf⟩
    · rcases he2 : checkEdges ids (d.edges.getD []) [] with m | u
      · rw [compileCanvasAll_def, hn] at h
        simp only [Except.bind, he2, Except.map, Except.error.injEq] at h
        obtain ⟨e, hmem, hinf⟩ := checkEdges_error_infix ids (d.edges.getD []) [] m he2
        subst h
        exact Or.inr ⟨e, hmem, hinf⟩
      · rw [compileCanvasAll_def, hn] at h
        simp only [Except.bind, he2, Except.map] at h
        exact absurd h (by simp)
  · exact ⟨"duplicate node id: dup", by decide, by decide⟩

/-- Witness for C4: the duplicate-id example applied through the claim
theorem. -/
theorem c4_validation_and_error_messages_witness :
    ∃ msg, compileCanvasAll dupDoc {} = .error msg ∧ "dup".data <:+: msg.data :=
  c4_validation_and_error_messages.2.2

/-! ## C10: identifier comparisons operate on trimmed ids -/

/-- **C10.** Identifier comparisons throughout the pipeline work on the
whitespace-trimmed id string: (i) two nodes whose ids trim to the same
string are rejected as duplicates by `compileCanvasAll`; (ii) trimming
every edge's `fromNode`/`toNode` never changes whether compilation
succeeds, because endpoint references already resolve through the trimmed
form; and (iii) `stripCanvasMetadata` emits each node's own `id` field
verbatim (untrimmed), while every node id stored inside an exported
`from`/`to` relation entry is already in trimmed form (normalizing it
again is a no-op). -/
theorem c10_trimmed_id_comparisons :
    (∀ (d : CanvasData) (s : CompileSettings) (i j : Nat) (a b : CanvasNode),
       i < j → (d.nodes.getD [])[i]? = some a → (d.nodes.getD [])[j]? = some b →
       normalizedId a.id = normalizedId b.id →
       isOkE (compileCanvasAll d s) = false)
    ∧ (∀ (d : CanvasData) (s : CompileSettings),
       isOkE (compileCanvasAll
           { nodes := d.nodes,
             edges := some ((d.edges.getD []).map (fun e =>
               { e with fromNode := normalizedId e.fromNode,
                        toNode := normalizedId e.toNode })) } s)
         = isOkE (compileCanvasAll d s))
    ∧ (∀ (d : CanvasData) (s : CompileSettings),
       (((stripCanvasMetadata d s).nodes.getD []).map (fun n => n.id)
          = (d.nodes.getD []).map (fun n => n.id))
       ∧ ∀ n ∈ (stripCanvasMetadata d s).nodes.getD [],
           (∀ r ∈ n.fromRel.getD [], normalizedId r.node = r.node) ∧
           (∀ r ∈ n.toRel.getD [], normalizedId r.node = r.node)) := by
  refine ⟨?_, ?_, ?_⟩
  · intro d s i j a b hij hi hj hid
    cases hok : isOkE (compileCanvasAll d s) with
    | false => rfl
    | true =>
      exfalso
      obtain ⟨_, n2, _⟩ := (compileCanvasAll_isOk_iff d s).mp hok
      have hmi : ((d.nodes.getD []).map fun n => normalizedId n.id)[i]?
          = some (normalizedId a.id) := by
        rw [List.getElem?_map, hi]
        rfl
      have hmj : ((d.nodes.getD []).map fun n => normalizedId n.id)[j]?
          = some (normalizedId b.id) := by
        rw [List.getElem?_map, hj]
        rfl
      have hlen : i < ((d.nodes.getD []).map fun n => normalizedId n.id).length :=
        (List.getElem?_eq_some_iff.mp hmi).1
      have h2 : ((d.nodes.getD []).map fun n => normalizedId n.id)[i]?
          = ((d.nodes.getD []).map fun n => normalizedId n.id)[j]? := by
        rw [hmi, hmj, hid]
      have := List.getElem?_inj hlen n2 h2
      omega
  · intro d s
    rw [Bool.eq_iff_iff, compileCanvasAll_isOk_iff, compileCanvasAll_isOk_iff]
    simp only [Option.getD_some, List.forall_mem_map, List.map_map, Function.comp_def,
      normalizedId_idem]
  · intro d s
    constructor
    · simp only [stripCanvasMetadata, Option.getD_some, List.map_map]
      rfl
    · intro n hn
      simp only [stripCanvasMetadata, Option.getD_some] at hn
      obtain ⟨n0, hn0, rfl⟩ := List.mem_map.mp hn
      constructor
      · intro r hr
        have hr2 : r ∈ (mget (processLabeledEdges
            ((d.edges.getD []).filter (fun e => e.label.isSome)) "from")
            (normalizedId n0.id)).getD [] := hr
        rcases hm : mget (processLabeledEdges
            ((d.edges.getD []).filter (fun e => e.label.isSome)) "from")
            (normalizedId n0.id) with _ | l
        · rw [hm] at hr2
          simp at hr2
        · rw [hm] at hr2
          simp only [Option.getD_some] at hr2
          exact processLabeledEdges_entries_trimmed _ "from" _ (mget_mem hm) r hr2
      · intro r hr
        have hr2 : r ∈ (mget (processLabeledEdges
            ((d.edges.getD []).filter (fun e => e.label.isSome)) "to")
            (normalizedId n0.id)).getD [] := hr
        rcases hm : mget (processLabeledEdges
            ((d.edges.getD []).filter (fun e => e.label.isSome)) "to")
            (normalizedId n0.id) with _ | l
        · rw [hm] at hr2
          simp at hr2
        · rw [hm] at hr2
          simp only [Option.getD_some] at hr2
          exact processLabeledEdges_entries_trimmed _ "to" _ (mget_mem hm) r hr2

/-- Witness for C10: the two ids `"dup"` and `" dup "` trim to the same
string, so compilation rejects the document. -/
theorem c10_trimmed_id_comparisons_witness :
    isOkE (compileCanvasAll c10Doc {}) = false :=
  c10_trimmed_id_comparisons.1 c10Doc {} 0 1
    (plainNode "dup" "text" 0 0 1 1) (plainNode " dup " "text" 5 5 1 1)
    (by decide) (by decide) (by decide) (by decide)

/-! ## C3: input-order determinism -/

/-- Counterexample to C3 as stated: the two documents hold the same node
set (the node arrays are permutations of each other), yet compilation
returns different outputs — the comparator ties on `c3t1` vs `c3t2`
(equal position, priority, color and sort key but different ids), the
stable sort keeps the input order, and the input order leaks into the
output.  So the node comparator is not total on distinct nodes and input
array order can influence `compile`. -/
theorem c3_counterexample :
    List.Perm [c3t2, c3t1] [c3t1, c3t2]
    ∧ compileCanvasAll { nodes := some [c3t1, c3t2], edges := some [] } {}
      ≠ compileCanvasAll { nodes := some [c3t2, c3t1], edges := some [] } {} := by
  constructor
  · decide
  · decide

/-- **C3 (amended).** Permuting the *edge* array never changes the output
of a successful compile, provided flow-aware node sorting is off: the edge
validation conditions are order-insensitive, node flattening does not
consult the edges, and the edge sort is a stable sort by a key that is
injective on the validated (duplicate-free) edge ids.  (The node-array
half of the original claim is refuted by `c3_counterexample`: node
comparator ties make node input order observable.) -/
theorem c3_edge_permutation_invariance (d : CanvasData) (s : CompileSettings)
    (edges2 : List CanvasEdge) (out : CanvasData)
    (hs : s.flowSortNodes ≠ some true)
    (hp : List.Perm (d.edges.getD []) edges2)
    (h : compileCanvasAll d s = .ok out) :
    compileCanvasAll { nodes := d.nodes, edges := some edges2 } s = .ok out := by
  rw [compileCanvasAll_def] at h
  rcases hn : checkNodes (d.nodes.getD []) [] with m | ids
  · rw [hn] at h
    simp [Except.bind] at h
  · rw [hn] at h
    simp only [Except.bind] at h
    rcases he : checkEdges ids (d.edges.getD []) [] with m | u
    · rw [he] at h
      simp [Except.map] at h
    · rw [he] at h
      simp only [Except.map] at h
      have hnd : ((d.edges.getD []).map fun e => normalizedId e.id).Nodup :=
        ((checkEdges_isOk_iff ids (d.edges.getD []) []).mp (by rw [he]; rfl)).2.1
      cases u
      have he2 : checkEdges ids edges2 [] = .ok () := checkEdges_ok_perm ids hp he
      rw [compileCanvasAll_def]
      have hn' : checkNodes
          (({ nodes := d.nodes, edges := some edges2 } : CanvasData).nodes.getD []) []
          = .ok ids := hn
      rw [hn']
      simp only [Except.bind]
      have he2' : checkEdges ids
          (({ nodes := d.nodes, edges := some edges2 } : CanvasData).edges.getD []) []
          = .ok () := he2
      rw [he2']
      simp only [Except.map]
      rw [← h]
      have hflat : flattenHierarchical
          (({ nodes := d.nodes, edges := some edges2 } : CanvasData).nodes.getD [])
          (buildHierarchy (({ nodes := d.nodes, edges := some edges2 } : CanvasData).nodes.getD []))
          s (({ nodes := d.nodes, edges := some edges2 } : CanvasData).edges.getD [])
          (nodePositionsOf (({ nodes := d.nodes, edges := some edges2 } : CanvasData).nodes.getD []))
          = flattenHierarchical (d.nodes.getD []) (buildHierarchy (d.nodes.getD [])) s
            (d.edges.getD []) (nodePositionsOf (d.nodes.getD [])) :=
        flattenHierarchical_edges_eq (d.nodes.getD []) (buildHierarchy (d.nodes.getD [])) s hs
          edges2 (d.edges.getD []) (nodePositionsOf (d.nodes.getD []))
      have hsort : stableEdgeSortByTopology
          (({ nodes := d.nodes, edges := some edges2 } : CanvasData).edges.getD [])
          (nodePositionsOf (({ nodes := d.nodes, edges := some edges2 } : CanvasData).nodes.getD []))
          s (({ nodes := d.nodes, edges := some edges2 } : CanvasData).nodes.getD [])
          = stableEdgeSortByTopology (d.edges.getD []) (nodePositionsOf (d.nodes.getD [])) s
            (d.nodes.getD []) :=
        (stableEdgeSortByTopology_perm_eq s hs (nodePositionsOf (d.nodes.getD []))
          (d.nodes.getD []) hp hnd).symm
      rw [hflat, hsort]

/-- Witness for the amended C3: swapping the two edges of a concrete
document leaves the compiled output unchanged. -/
theorem c3_edge_permutation_invariance_witness :
    compileCanvasAll { nodes := some [c3n1, c3n2], edges := some [c3ey, c3ex] } {}
      = .ok { nodes := some [c3n1, c3n2], edges := some [c3ex, c3ey] } :=
  c3_edge_permutation_invariance
    { nodes := some [c3n1, c3n2], edges := some [c3ex, c3ey] } {}
    [c3ey, c3ex] { nodes := some [c3n1, c3n2], edges := some [c3ex, c3ey] }
    (by decide) (by decide) (by decide)

/-! ## C2: idempotence -/

/-- Counterexample to C2 as stated: compiling `c2Doc` once yields the node
order `[g2, g1, n]`, but compiling that output again yields `[g2, n, g1]`:
the text node `n` is contained in both equal-area groups, the innermost
parent is the *first* containing group of minimal area in array order, and
the first compile reorders the groups, so the parent assignment (and hence
the flattened order) changes on recompilation.  `compile` is not
idempotent. -/
theorem c2_counterexample :
    compileCanvasAll c2Doc {}
      = .ok { nodes := some [c2g2, c2g1, c2n], edges := some [] }
    ∧ compileCanvasAll { nodes := some [c2g2, c2g1, c2n], edges := some [] } {}
      ≠ .ok { nodes := some [c2g2, c2g1, c2n], edges := some [] } := by
  constructor
  · decide
  · decide

/-- **C2 (amended).** On documents without group nodes, and with flow-aware
node sorting off, `compile` is idempotent: if `compile d s = ok out` then
`compile out s = ok out`.  Without groups the hierarchy is empty and the
output is a stable key-sort of the nodes plus a stable key-sort of the
edges; both sorts are idempotent and the integrity conditions are
permutation-invariant.  (Idempotence fails in general: see
`c2_counterexample`, where an equal-area parent tie flips with the group
order.) -/
theorem c2_idempotence_without_groups (d : CanvasData) (s : CompileSettings) (out : CanvasData)
    (hg : ∀ n ∈ d.nodes.getD [], n.type ≠ "group")
    (hs : s.flowSortNodes ≠ some true)
    (h : compileCanvasAll d s = .ok out) :
    compileCanvasAll out s = .ok out := by
  rw [compileCanvasAll_def] at h
  rcases hn : checkNodes (d.nodes.getD []) [] with m | ids
  · rw [hn] at h
    simp [Except.bind] at h
  · rw [hn] at h
    simp only [Except.bind] at h
    rcases he : checkEdges ids (d.edges.getD []) [] with m | u
    · rw [he] at h
      simp [Except.map] at h
    · rw [he] at h
      simp only [Except.map, Except.ok.injEq] at h
      cases u
      obtain ⟨hn1, hn2, -⟩ := (checkNodes_isOk_iff (d.nodes.getD []) []).mp (by rw [hn]; rfl)
      obtain ⟨he1, he2, -, he4, he5⟩ :=
        (checkEdges_isOk_iff ids (d.edges.getD []) []).mp (by rw [he]; rfl)
      have hids : ids = (d.nodes.getD []).map fun n => normalizedId n.id := by
        have h2 := checkNodes_ok (d.nodes.getD []) [] hn1 hn2 (by simp)
        rw [hn] at h2
        simpa using h2
      have houtN : flattenHierarchical (d.nodes.getD []) (buildHierarchy (d.nodes.getD []))
          s (d.edges.getD []) (nodePositionsOf (d.nodes.getD []))
          = stableSortByXY (d.nodes.getD []) s (d.edges.getD [])
            (nodePositionsOf (d.nodes.getD [])) (s.semanticSortOrphans = some true) := by
        rw [buildHierarchy_no_groups (d.nodes.getD []) hg]
        exact flattenHierarchical_no_groups (d.nodes.getD []) s (d.edges.getD [])
          (nodePositionsOf (d.nodes.getD [])) hg hn2
      have houtE : stableEdgeSortByTopology (d.edges.getD [])
          (nodePositionsOf (d.nodes.getD [])) s (d.nodes.getD [])
          = (d.edges.getD []).mergeSort
            (keyLe (edgeKey s (nodePositionsOf (d.nodes.getD [])))) :=
        stableEdgeSortByTopology_flowOff s hs (d.edges.getD [])
          (nodePositionsOf (d.nodes.getD [])) (d.nodes.getD [])
      rw [houtN, houtE] at h
      have hpermN : List.Perm (stableSortByXY (d.nodes.getD []) s (d.edges.getD [])
          (nodePositionsOf (d.nodes.getD [])) (s.semanticSortOrphans = some true))
          (d.nodes.getD []) :=
        stableSortByXY_perm (d.nodes.getD []) s (d.edges.getD [])
          (nodePositionsOf (d.nodes.getD [])) _
      have hpermE : List.Perm ((d.edges.getD []).mergeSort
          (keyLe (edgeKey s (nodePositionsOf (d.nodes.getD []))))) (d.edges.getD []) :=
        List.mergeSort_perm (d.edges.getD []) _
      subst h
      have hgN : ∀ n ∈ (stableSortByXY (d.nodes.getD []) s (d.edges.getD [])
          (nodePositionsOf (d.nodes.getD [])) (s.semanticSortOrphans = some true)),
          n.type ≠ "group" := fun n hn2b => hg n (hpermN.subset hn2b)
      have hndN : ((stableSortByXY (d.nodes.getD []) s (d.edges.getD [])
          (nodePositionsOf (d.nodes.getD [])) (s.semanticSortOrphans = some true)).map
            fun n => normalizedId n.id).Nodup :=
        ((hpermN.map fun n => normalizedId n.id).nodup_iff).mpr hn2
      have hcn : checkNodes (stableSortByXY (d.nodes.getD []) s (d.edges.getD [])
          (nodePositionsOf (d.nodes.getD [])) (s.semanticSortOrphans = some true)) []
          = .ok ((stableSortByXY (d.nodes.getD []) s (d.edges.getD [])
            (nodePositionsOf (d.nodes.getD [])) (s.semanticSortOrphans = some true)).map
              fun n => normalizedId n.id) := by
        have := checkNodes_ok (stableSortByXY (d.nodes.getD []) s (d.edges.getD [])
          (nodePositionsOf (d.nodes.getD [])) (s.semanticSortOrphans = some true)) []
          (fun n hn2b => hn1 n (hpermN.subset hn2b)) hndN (by simp)
        simpa using this
      have hce : checkEdges ((stableSortByXY (d.nodes.getD []) s (d.edges.getD [])
          (nodePositionsOf (d.nodes.getD [])) (s.semanticSortOrphans = some true)).map
            fun n => normalizedId n.id)
          ((d.edges.getD []).mergeSort
            (keyLe (edgeKey s (nodePositionsOf (d.nodes.getD []))))) [] = .ok () := by
        apply checkEdges_ok
        · exact fun e he2b => he1 e (hpermE.subset he2b)
        · exact ((hpermE.map fun e => normalizedId e.id).nodup_iff).mpr he2
        · simp
        · exact fun e he2b => he4 e (hpermE.subset he2b)
        · intro e he2b
          have h5 := he5 e (hpermE.subset he2b)
          rw [hids] at h5
          constructor
          · exact ((hpermN.map fun n => normalizedId n.id).mem_iff).mpr h5.1
          · exact ((hpermN.map fun n => normalizedId n.id).mem_iff).mpr h5.2
      have hposperm : List.Perm
          (nodePositionsOf (stableSortByXY (d.nodes.getD []) s (d.edges.getD [])
            (nodePositionsOf (d.nodes.getD [])) (s.semanticSortOrphans = some true)))
          (nodePositionsOf (d.nodes.getD [])) := by
        unfold nodePositionsOf
        exact hpermN.map _
      have hposnd : ((nodePositionsOf (stableSortByXY (d.nodes.getD []) s (d.edges.getD [])
          (nodePositionsOf (d.nodes.getD [])) (s.semanticSortOrphans = some true))).map
            Prod.fst).Nodup := by
        have : ((nodePositionsOf (stableSortByXY (d.nodes.getD []) s (d.edges.getD [])
            (nodePositionsOf (d.nodes.getD [])) (s.semanticSortOrphans = some true))).map
              Prod.fst)
            = (stableSortByXY (d.nodes.getD []) s (d.edges.getD [])
              (nodePositionsOf (d.nodes.getD [])) (s.semanticSortOrphans = some true)).map
                fun n => normalizedId n.id := by
          rw [nodePositionsOf, List.map_map]
          rfl
        rw [this]
        exact hndN
      have hposeq : ∀ k, mget (nodePositionsOf (stableSortByXY (d.nodes.getD []) s
          (d.edges.getD []) (nodePositionsOf (d.nodes.getD []))
          (s.semanticSortOrphans = some true))) k
          = mget (nodePositionsOf (d.nodes.getD [])) k :=
        mget_perm hposperm hposnd
      have hkeyeq : keyLe (edgeKey s (nodePositionsOf (stableSortByXY (d.nodes.getD []) s
          (d.edges.getD []) (nodePositionsOf (d.nodes.getD []))
          (s.semanticSortOrphans = some true))))
          = keyLe (edgeKey s (nodePositionsOf (d.nodes.getD []))) := by
        funext a b
        unfold keyLe
        rw [edgeKey_congr s hposeq a, edgeKey_congr s hposeq b]
      have hflat2 : flattenHierarchical (stableSortByXY (d.nodes.getD []) s (d.edges.getD [])
          (nodePositionsOf (d.nodes.getD [])) (s.semanticSortOrphans = some true))
          (buildHierarchy (stableSortByXY (d.nodes.getD []) s (d.edges.getD [])
            (nodePositionsOf (d.nodes.getD [])) (s.semanticSortOrphans = some true)))
          s ((d.edges.getD []).mergeSort
            (keyLe (edgeKey s (nodePositionsOf (d.nodes.getD [])))))
          (nodePositionsOf (stableSortByXY (d.nodes.getD []) s (d.edges.getD [])
            (nodePositionsOf (d.nodes.getD [])) (s.semanticSortOrphans = some true)))
          = stableSortByXY (d.nodes.getD []) s (d.edges.getD [])
            (nodePositionsOf (d.nodes.getD [])) (s.semanticSortOrphans = some true) := by
        rw [buildHierarchy_no_groups _ hgN,
          flattenHierarchical_no_groups _ s _ _ hgN hndN,
          stableSortByXY_idem s hs]
      have hsort2 : stableEdgeSortByTopology ((d.edges.getD []).mergeSort
          (keyLe (edgeKey s (nodePositionsOf (d.nodes.getD [])))))
          (nodePositionsOf (stableSortByXY (d.nodes.getD []) s (d.edges.getD [])
            (nodePositionsOf (d.nodes.getD [])) (s.semanticSortOrphans = some true)))
          s (stableSortByXY (d.nodes.getD []) s (d.edges.getD [])
            (nodePositionsOf (d.nodes.getD [])) (s.semanticSortOrphans = some true))
          = (d.edges.getD []).mergeSort
            (keyLe (edgeKey s (nodePositionsOf (d.nodes.getD [])))) := by
        rw [stableEdgeSortByTopology_flowOff s hs, hkeyeq]
        exact mergeSort_keyLe_idem _ _
      rw [compileCanvasAll_ok_parts _ _ s _ hcn hce, hflat2, hsort2]

/-- Witness for the amended C2: a two-text-node document, compiled once and
recompiled. -/
theorem c2_idempotence_without_groups_witness :
    compileCanvasAll
        { nodes := some [plainNode "w2" "text" 0 0 1 1, plainNode "w1" "text" 0 10 1 1],
          edges := some [] } {}
      = .ok { nodes := some [plainNode "w2" "text" 0 0 1 1, plainNode "w1" "text" 0 10 1 1],
              edges := some [] } :=
  c2_idempotence_without_groups
    { nodes := some [plainNode "w1" "text" 0 10 1 1, plainNode "w2" "text" 0 0 1 1],
      edges := some [] } {}
    { nodes := some [plainNode "w2" "text" 0 0 1 1, plainNode "w1" "text" 0 10 1 1],
      edges := some [] }
    (by decide) (by decide) (by decide)

/-! ## C1: output preservation -/

/-- Counterexample to C1 as stated: in `c1Doc` the two identical group
rectangles mutually contain each other, so each is recorded as the other's
child, no root remains, and the compiled output drops both nodes — the
output node array is empty and is not a permutation of the input. -/
theorem c1_counterexample :
    compileCanvasAll c1Doc {} = .ok { nodes := some [], edges := some [] }
    ∧ ¬ List.Perm ([] : List CanvasNode) (c1Doc.nodes.getD []) := by
  constructor
  · decide
  · decide

/-- **C1 (amended).** The compiled edge array is *always* a permutation of
the input edge array — unconditionally, for every successful compile (the
edge sort never drops or duplicates edges, even on documents whose groups
mutually contain each other).  The compiled node array is a permutation of
the input node array whenever the innermost-group-parent relation is
acyclic, witnessed by any rank function `rk` that strictly decreases from
a group to its innermost parent; this covers arbitrarily nested groups.
(Without that condition node preservation fails: see `c1_counterexample`,
where two mutually contained groups are both dropped.) -/
theorem c1_output_preservation :
    (∀ (d : CanvasData) (s : CompileSettings) (out : CanvasData),
      compileCanvasAll d s = .ok out →
      List.Perm (out.edges.getD []) (d.edges.getD []))
    ∧ (∀ (d : CanvasData) (s : CompileSettings) (out : CanvasData)
        (rk : CanvasNode → Nat),
        (∀ g ∈ d.nodes.getD [], g.type = "group" → ∀ p,
          innermostGroupParent ((d.nodes.getD []).filter fun x => x.type = "group") g
            = some p → rk p < rk g) →
        compileCanvasAll d s = .ok out →
        List.Perm (out.nodes.getD []) (d.nodes.getD [])) := by
  constructor
  · intro d s out h
    rw [compileCanvasAll_def] at h
    rcases hn : checkNodes (d.nodes.getD []) [] with m | ids
    · rw [hn] at h
      simp [Except.bind] at h
    · rw [hn] at h
      simp only [Except.bind] at h
      rcases he : checkEdges ids (d.edges.getD []) [] with m | u
      · rw [he] at h
        simp [Except.map] at h
      · rw [he] at h
        simp only [Except.map, Except.ok.injEq] at h
        subst h
        exact stableEdgeSortByTopology_perm (d.edges.getD [])
          (nodePositionsOf (d.nodes.getD [])) s (d.nodes.getD [])
  · intro d s out rk hrk h
    rw [compileCanvasAll_def] at h
    rcases hn : checkNodes (d.nodes.getD []) [] with m | ids
    · rw [hn] at h
      simp [Except.bind] at h
    · rw [hn] at h
      simp only [Except.bind] at h
      rcases he : checkEdges ids (d.edges.getD []) [] with m | u
      · rw [he] at h
        simp [Except.map] at h
      · rw [he] at h
        simp only [Except.map, Except.ok.injEq] at h
        have hnd : ((d.nodes.getD []).map fun n => normalizedId n.id).Nodup :=
          ((checkNodes_isOk_iff (d.nodes.getD []) []).mp (by rw [hn]; rfl)).2.1
        subst h
        exact flattenHierarchical_perm (d.nodes.getD []) s (d.edges.getD [])
          (nodePositionsOf (d.nodes.getD [])) hnd rk hrk

/-- Witness for the amended C1.  The edge half is exercised on a document
with two *mutually containing* groups (no rank function exists there, and
the compile indeed drops both nodes) plus one edge between them: the edge
still survives as a permutation.  The node half is exercised on one group
properly containing one text node. -/
theorem c1_output_preservation_witness :
    List.Perm [arrowEdge "ab" "a" "b"] [arrowEdge "ab" "a" "b"]
    ∧ List.Perm [c1G, c1T] [c1T, c1G] :=
  ⟨c1_output_preservation.1
      { nodes := some [plainNode "a" "group" 0 0 10 10, plainNode "b" "group" 0 0 10 10],
        edges := some [arrowEdge "ab" "a" "b"] } {}
      { nodes := some [], edges := some [arrowEdge "ab" "a" "b"] } (by decide),
   c1_output_preservation.2 { nodes := some [c1T, c1G], edges := some [] } {}
      { nodes := some [c1G, c1T], edges := some [] } (fun _ => 0)
      (by
        intro g hg hgt p hp
        have hg2 : g = c1T ∨ g = c1G := by simpa using hg
        rcases hg2 with rfl | rfl
        · exact absurd hgt (by decide)
        · have hnone : innermostGroupParent (([c1T, c1G] : List CanvasNode).filter
              fun x => x.type = "group") c1G = none := by decide
          have hp2 : innermostGroupParent (([c1T, c1G] : List CanvasNode).filter
              fun x => x.type = "group") c1G = some p := hp
          rw [hnone] at hp2
          exact Option.noConfusion hp2)
      (by decide)⟩

end SemanticJson
